import Mathlib

/-!
Verification of the go-bitflow pipeline engine specification against its source.

The development shallowly embeds the parts of the repository that the claims
C1..C10 are about:

* `Csv` — the CSV marshaller (`CsvMarshaller.WriteSample`, `ReadSample`,
  `ReadHeader`, `readCsvLine` from the `sample` package).  Byte streams are
  modelled as `List Char`; Go's `float64`/`time.Time` formatting and parsing
  (`fmt.Sprintf("%v", ...)`, `strconv.ParseFloat`, `time.Format`/`time.Parse`)
  are abstracted as explicit `printVal/parseVal` and `printTime/parseTime`
  function parameters, with concrete decimal instantiations used for the
  closed counterexamples and witnesses.
* `Fanout` — the fork fan-out (`sinkMultiplexer.Sample`, `multiPipelineSink.Sample`)
  and `AggregateSink.Sample`, over an explicit two-arena heap that makes Go's
  slice/map aliasing observable.
* `Transport` — `ParallelSampleStream.HasError` and `BufferedSample.WaitDone`.
* `ForkCache` — `SampleFork.getPipeline` and its template cache.
* `Processor` — `SimpleProcessor.Sample`.
* `Query` — the AST lowering pass (`Pipeline.Transform`, `transform`,
  `Pipelines.transformMultiplex`, `Fork.transformFork` from the `query` package).
-/

deriving instance DecidableEq for Except

namespace Csv

/-- Byte strings are modelled as lists of characters. -/
abbrev Chars := List Char

/-- `csv_separator_rune` from the source. -/
def csvSeparator : Char := ','

/-- `csv_newline` from the source (a single newline character). -/
def csvNewline : Char := '\n'

/-- Model of `bufio.Reader.ReadString('\n')` over a fixed input stream:
returns the data up to and including the first newline together with the
remaining stream; when the stream is exhausted before a newline is found it
returns everything read and the EOF flag (Go's `err == io.EOF`). -/
def readLine : Chars → Chars × Chars × Bool
  | [] => ([], [], true)
  | c :: rest =>
    if c = csvNewline then ([c], rest, false)
    else
      let (l, r, eof) := readLine rest
      (c :: l, r, eof)

/-- Model of Go's `strings.FieldsFunc`: the maximal runs of non-separator
characters, with empty fields dropped.  `fieldsAux` carries the current run
in reverse, exactly like an accumulating implementation of `FieldsFunc`. -/
def fieldsAux (sep : Char) (cur : Chars) : Chars → List Chars
  | [] => if cur = [] then [] else [cur.reverse]
  | c :: rest =>
    if c = sep then
      if cur = [] then fieldsAux sep [] rest
      else cur.reverse :: fieldsAux sep [] rest
    else fieldsAux sep (c :: cur) rest

/-- `strings.FieldsFunc(s, func(r rune) bool { return r == sep })`. -/
def fieldsFunc (sep : Char) (s : Chars) : List Chars := fieldsAux sep [] s

/-- `readCsvLine` from the source: read one line; an empty line yields no
fields; otherwise the last character is stripped (the source comment says
"Strip newline char", but the strip is unconditional, so on EOF mid-line the
last data character is removed) and the line is split on commas.  Returns
`((fields, eof), rest-of-stream)`. -/
def readCsvLine (input : Chars) : (List Chars × Bool) × Chars :=
  let (line, rest, eof) := readLine input
  if line = [] then (([], eof), rest)
  else ((fieldsFunc csvSeparator line.dropLast, eof), rest)

/-- `Header` from the source `sample` package: field names plus the HasTags flag. -/
structure Header where
  hasTags : Bool
  fields : List Chars
deriving DecidableEq

/-- The sample record: timestamp, ordered value vector, ordered tag map.
The value and timestamp types are abstract (`float64` and `time.Time` in Go);
tags are the ordered key/value association list described in spec section 4.A. -/
structure CsvSample (V T : Type) where
  time : T
  values : List V
  tags : List (Chars × Chars)
deriving DecidableEq

/-- Join chunks with a single separator character between them
(`joinSep sep [a, b, c] = a ++ sep :: b ++ sep :: c`). -/
def joinSep (sep : Char) : List Chars → Chars
  | [] => []
  | [c] => c
  | c :: rest => c ++ sep :: joinSep sep rest

/-- One serialized tag pair (`key=value`). -/
def tagChunk (p : Chars × Chars) : Chars := p.1 ++ '=' :: p.2

/-- Modelled from the spec: `Sample.TagString` is not under `src/`; spec
section 4.A says tags are encoded as `k1=v1 k2=v2`, space between pairs, `=`
between key and value, keys in first-insertion order. -/
def tagString (tags : List (Chars × Chars)) : Chars :=
  joinSep ' ' (tags.map tagChunk)

/-- Split one `key=value` chunk at its first `=`; `none` when the pair lacks `=`. -/
def splitPair (chunk : Chars) : Option (Chars × Chars) :=
  if '=' ∈ chunk then
    some (chunk.takeWhile (fun c => c ≠ '='), (chunk.dropWhile (fun c => c ≠ '=')).tail)
  else none

/-- Modelled from the spec: `Sample.ParseTagString` is not under `src/`; spec
section 4.A says it fails with `MalformedTag` when a pair lacks `=` or keys
repeat.  Pairs are the space-separated fields of the tag string. -/
def parseTagString (s : Chars) : Option (List (Chars × Chars)) :=
  match (fieldsFunc ' ' s).mapM splitPair with
  | none => none
  | some pairs => if (pairs.map Prod.fst).Nodup then some pairs else none

/-- The value columns of `CsvMarshaller.WriteSample`: each value is written as
a separator followed by its formatted text. -/
def writeValues {V : Type} (printVal : V → Chars) : List V → Chars
  | [] => []
  | v :: rest => csvSeparator :: printVal v ++ writeValues printVal rest

/-- `CsvMarshaller.WriteSample` from the source: timestamp, then (iff the
header has tags) a separator and the tag string, then the formatted values,
then a newline. -/
def WriteSample {V T : Type} (printVal : V → Chars) (printTime : T → Chars)
    (s : CsvSample V T) (h : Header) : Chars :=
  printTime s.time
    ++ (if h.hasTags then csvSeparator :: tagString s.tags else [])
    ++ writeValues printVal s.values
    ++ [csvNewline]

/-- The error outcomes of the CSV read path.  The source returns Go `error`
values; the constructors record which failure site produced the error.
`indexPanic` models the out-of-range access `fields[0]` that the Go code
performs when a line produced no fields but EOF was not reached. -/
inductive CsvError where
  | endOfStream
  | timeParse
  | sampleTooShort
  | malformedTags
  | valueParse
  | badHeaderCol
  | indexPanic
deriving DecidableEq

/-- The value columns of `CsvMarshaller.ReadSample`: each remaining field is
parsed and appended to the value vector; the first failure aborts. -/
def parseValues {V : Type} (parseVal : Chars → Option V) (fs : List Chars) :
    Option (List V) :=
  fs.mapM parseVal

/-- `CsvMarshaller.ReadSample` from the source.  Returns the parsed sample (or
the error) together with the remaining stream. -/
def ReadSample {V T : Type} (parseVal : Chars → Option V) (parseTime : Chars → Option T)
    (h : Header) (input : Chars) : Except CsvError (CsvSample V T) × Chars :=
  let ((fields, eof), rest) := readCsvLine input
  match fields with
  | [] => if eof then (.error .endOfStream, rest) else (.error .indexPanic, rest)
  | f0 :: fs =>
    match parseTime f0 with
    | none => (.error .timeParse, rest)
    | some t =>
      if h.hasTags then
        match fs with
        | [] => (.error .sampleTooShort, rest)
        | f1 :: fs2 =>
          match parseTagString f1 with
          | none => (.error .malformedTags, rest)
          | some tags =>
            match parseValues parseVal fs2 with
            | none => (.error .valueParse, rest)
            | some vals => (.ok ⟨t, vals, tags⟩, rest)
      else
        match parseValues parseVal fs with
        | none => (.error .valueParse, rest)
        | some vals => (.ok ⟨t, vals, []⟩, rest)

/-- Modelled from the spec: the `time_col` constant is defined outside `src/`;
spec section 6 names the first CSV column `time`. -/
def timeCol : Chars := "time".data

/-- Modelled from the spec: the `tags_col` constant is defined outside `src/`;
spec section 6 names the optional second CSV column `tags`. -/
def tagsCol : Chars := "tags".data

/-- `CsvMarshaller.ReadHeader` from the source (`checkFirstCol` is modelled
from the spec: the first column must be the reserved timestamp name). -/
def ReadHeader (input : Chars) : Except CsvError Header × Chars :=
  let ((fields, eof), rest) := readCsvLine input
  match fields with
  | [] => if eof then (.error .endOfStream, rest) else (.error .indexPanic, rest)
  | f0 :: fs =>
    if f0 = timeCol then
      let hasTags := match fs with
        | t :: _ => t = tagsCol
        | [] => false
      (.ok ⟨hasTags, if hasTags then fs.tail else fs⟩, rest)
    else (.error .badHeaderCol, rest)

/-- Decimal digit character (stand-in instantiation for Go's number formatting). -/
def decDigitChar (d : Nat) : Char :=
  Char.ofNat ('0'.toNat + d % 10)

/-- Fueled decimal printer (structural recursion so that concrete instances
reduce inside `decide`). -/
def decPrintGo : Nat → Nat → Chars
  | 0, _ => []
  | fuel + 1, n =>
    if n < 10 then [decDigitChar n]
    else decPrintGo fuel (n / 10) ++ [decDigitChar (n % 10)]

/-- Decimal printing of a natural number.  Used as the concrete instantiation
of the abstract value/timestamp formatting in counterexamples and witnesses. -/
def decPrint (n : Nat) : Chars := decPrintGo (n + 1) n

/-- Value of a decimal digit character. -/
def decDigitVal (c : Char) : Option Nat :=
  if '0' ≤ c ∧ c ≤ '9' then some (c.toNat - '0'.toNat) else none

/-- Accumulating decimal parser. -/
def decParseGo : Chars → Nat → Option Nat
  | [], acc => some acc
  | c :: rest, acc =>
    match decDigitVal c with
    | some d => decParseGo rest (acc * 10 + d)
    | none => none

/-- Decimal parsing of a natural number (concrete instantiation of the
abstract value/timestamp parsing). -/
def decParse (cs : Chars) : Option Nat :=
  if cs = [] then none else decParseGo cs 0

/-- Well-formedness of one tag pair for the CSV round trip: the key contains
no `=`, and neither key nor value contains the reserved bytes space, comma or
newline (spec sections 3 and 6 reserve the pair and key-value separators). -/
def tagWf (p : Chars × Chars) : Prop :=
  '=' ∉ p.1 ∧ ' ' ∉ p.1 ∧ ' ' ∉ p.2 ∧
    ',' ∉ p.1 ∧ ',' ∉ p.2 ∧ '\n' ∉ p.1 ∧ '\n' ∉ p.2

instance (p : Chars × Chars) : Decidable (tagWf p) := by
  unfold tagWf; infer_instance

end Csv

namespace Fanout

/-- Go errors are modelled as strings. -/
abbrev GoError := String

/-- Two-arena heap making Go's slice and map aliasing observable: addresses
are indices into the arena of value vectors and the arena of tag maps. -/
structure Heap (V : Type) where
  valueCells : List (List V)
  tagCells : List (List (String × String))
deriving DecidableEq

/-- A `*bitflow.Sample` as seen by the fan-out code: the timestamp is held
directly in the struct, the value vector and tag map are references. -/
structure SampleRef where
  time : Nat
  valuesAddr : Nat
  tagsAddr : Nat
deriving DecidableEq

def readValues {V : Type} (h : Heap V) (a : Nat) : List V := h.valueCells.getD a []

def readTags {V : Type} (h : Heap V) (a : Nat) : List (String × String) :=
  h.tagCells.getD a []

def writeValues {V : Type} (h : Heap V) (a : Nat) (vs : List V) : Heap V :=
  { h with valueCells := h.valueCells.set a vs }

def writeTags {V : Type} (h : Heap V) (a : Nat) (ts : List (String × String)) : Heap V :=
  { h with tagCells := h.tagCells.set a ts }

/-- What a branch can do to the sample it received: `Sample.SetTag` or an
in-place update of one value slot. -/
inductive SampleMutation (V : Type) where
  | setValue (i : Nat) (v : V)
  | setTag (k v : String)
deriving DecidableEq

/-- Modelled from the spec: `Sample.SetTag` is not under `src/`; spec section
3 describes the tag map as an ordered mapping with first-insertion key order,
so an existing key is updated in place and a new key is appended. -/
def setTagList (tags : List (String × String)) (k v : String) :
    List (String × String) :=
  if tags.any (fun p => p.1 = k) then
    tags.map (fun p => if p.1 = k then (k, v) else p)
  else tags ++ [(k, v)]

def applyMutation {V : Type} (h : Heap V) (r : SampleRef) (m : SampleMutation V) :
    Heap V :=
  match m with
  | .setValue i v => writeValues h r.valuesAddr ((readValues h r.valuesAddr).set i v)
  | .setTag k v => writeTags h r.tagsAddr (setTagList (readTags h r.tagsAddr) k v)

def applyMutations {V : Type} (h : Heap V) (r : SampleRef)
    (ms : List (SampleMutation V)) : Heap V :=
  ms.foldl (fun acc m => applyMutation acc r m) h

/-- The pure effect of a branch's mutations on a value vector. -/
def applyValueMuts {V : Type} (vals : List V) (ms : List (SampleMutation V)) : List V :=
  ms.foldl (fun vs m =>
    match m with
    | .setValue i v => vs.set i v
    | .setTag _ _ => vs) vals

/-- The pure effect of a branch's mutations on a tag map. -/
def applyTagMuts (tags : List (String × String)) {V : Type}
    (ms : List (SampleMutation V)) : List (String × String) :=
  ms.foldl (fun ts m =>
    match m with
    | .setValue _ _ => ts
    | .setTag k v => setTagList ts k v) tags

/-- Modelled from the spec: `Sample.DeepClone` is not under `src/`; spec
section 4.A says `deepClone` copies both the value vector and the tag map.
The clone gets fresh addresses at the end of each arena. -/
def deepClone {V : Type} (s : SampleRef) (h : Heap V) : SampleRef × Heap V :=
  (⟨s.time, h.valueCells.length, h.tagCells.length⟩,
   ⟨h.valueCells ++ [readValues h s.valuesAddr],
    h.tagCells ++ [readTags h s.tagsAddr]⟩)

/-- The behaviour of one branch sink: the mutations it performs on the sample
handed to it, and the error its `Sample` call returns. -/
structure BranchSink (V : Type) where
  mutations : List (SampleMutation V)
  result : Option GoError
deriving DecidableEq

/-- The outcome of a fan-out call: final heap, the `golib.MultiError`
contents in branch order, and the sample reference each invoked sink received. -/
structure FanoutResult (V : Type) where
  heap : Heap V
  errors : List GoError
  delivered : List SampleRef
deriving DecidableEq

/-- `sinkMultiplexer.Sample` from the source (identical loop in
`multiPipelineSink.Sample`): for each non-nil sink, hand it `sample.DeepClone()`
and add its error to the multi-error; nil sinks are skipped. -/
def sinkMultiplexerSample {V : Type} (sinks : List (Option (BranchSink V)))
    (s : SampleRef) (h : Heap V) : FanoutResult V :=
  match sinks with
  | [] => ⟨h, [], []⟩
  | none :: rest => sinkMultiplexerSample rest s h
  | some b :: rest =>
    let ch := deepClone s h
    let h2 := applyMutations ch.2 ch.1 b.mutations
    let res := sinkMultiplexerSample rest s h2
    ⟨res.heap,
     (match b.result with
      | some e => e :: res.errors
      | none => res.errors),
     ch.1 :: res.delivered⟩

/-- `AggregateSink.Sample` from `src/sample/transport.go`: every sink in the
aggregate receives the same sample value (the Go struct is copied, but the
value slice and tag map references inside it are shared — no clone is taken). -/
def aggregateSinkSample {V : Type} (sinks : List (BranchSink V)) (s : SampleRef)
    (h : Heap V) : FanoutResult V :=
  match sinks with
  | [] => ⟨h, [], []⟩
  | b :: rest =>
    let h2 := applyMutations h s b.mutations
    let res := aggregateSinkSample rest s h2
    ⟨res.heap,
     (match b.result with
      | some e => e :: res.errors
      | none => res.errors),
     s :: res.delivered⟩

/-- `golib.MultiError.NilOrError` as described by the spec glossary: an empty
multi-error is flattened to nil. -/
def nilOrError (errs : List GoError) : Option (List GoError) :=
  if errs = [] then none else some errs

/-- Concrete heap fixture for witnesses and counterexamples: one value cell
`[1, 2]` at address 0 and one tag cell at address 0. -/
def wHeap : Heap Nat := ⟨[[1, 2]], [[("k", "v")]]⟩

/-- Concrete sample fixture pointing at the cells of `wHeap`. -/
def wSample : SampleRef := ⟨5, 0, 0⟩

/-- Concrete branch sinks: the first mutates slot 0 of its sample, the second
does nothing but fails. -/
def wSinks : List (Option (BranchSink Nat)) :=
  [some ⟨[.setValue 0 9], none⟩, none, some ⟨[], some "boom"⟩]

/-- Concrete fixtures exercising `AggregateSink.Sample`: a one-cell heap, a
sample at address 0, and two branches of which the first mutates slot 0. -/
def aggHeap : Heap Nat := ⟨[[1]], [[]]⟩

/-- The shared sample handed to every aggregated sink. -/
def aggSample : SampleRef := ⟨0, 0, 0⟩

/-- Two aggregated branches: a mutator and a passive observer. -/
def aggBranches : List (BranchSink Nat) := [⟨[.setValue 0 9], none⟩, ⟨[], none⟩]

end Fanout

namespace Transport

/-- Go errors are modelled as strings; `EndOfStream` is `io.EOF`. -/
abbrev GoError := String

/-- The `io.EOF` sentinel (`EndOfStream`). -/
def EndOfStream : GoError := "EOF"

/-- `ParallelSampleStream.HasError` from `src/sample/transport.go`:
`state.err != nil && state.err != io.EOF`. -/
def HasError (streamErr : Option GoError) : Bool :=
  match streamErr with
  | none => false
  | some e => decide (e ≠ EndOfStream)

/-- `BufferedSample.WaitDone` from `src/sample/transport.go`, evaluated
against a snapshot of the shared stream state (`streamErr`, which the stream
only ever sets, never clears) and this sample's `done` flag.  The result is
`some r` when the call returns `r`, and `none` when the call would stay
blocked in `doneCond.Wait()` with that state. -/
def WaitDone (streamErr : Option GoError) (done : Bool) : Option (Option GoError) :=
  if HasError streamErr then some streamErr
  else if done then
    if HasError streamErr then some streamErr else some none
  else none

end Transport

namespace ForkCache

/-- The value stored in the fork's cache for one template
(`subpipelineStart` in `src/unnamed/part_003`, minus the raw pipeline
pointer, which is the map key `tid` itself). -/
structure SubpipelineStart (FS : Type) where
  key : String
  firstStep : FS
deriving DecidableEq

/-- The fork's `pipelines` map: an association list keyed by template
identity (the `*pipeline.SamplePipeline` pointer in Go, modelled as `Nat`). -/
structure ForkState (FS : Type) where
  pipelines : List (Nat × SubpipelineStart FS)
deriving DecidableEq

def lookupTemplate {FS : Type} (cache : List (Nat × SubpipelineStart FS))
    (tid : Nat) : Option (SubpipelineStart FS) :=
  match cache with
  | [] => none
  | (t, e) :: rest => if t = tid then some e else lookupTemplate rest tid

/-- `SampleFork.getPipeline` from `src/unnamed/part_003`.  The Go body runs
entirely between `f.lock.Lock()` and the deferred `Unlock()`, so one call is
modelled as one atomic step on the fork state.  `init` abstracts
`initializePipeline` (which starts the sub-pipeline and returns its first
step) and `hook` is the optional `newPipelineHandler`.  The returned flag
records whether this call initialized the template. -/
def getPipeline {FS : Type} (init : Nat → String → FS) (hook : Option (FS → FS))
    (st : ForkState FS) (tid : Nat) (key : String) : ForkState FS × FS × Bool :=
  match lookupTemplate st.pipelines tid with
  | some pipe => (st, pipe.firstStep, false)
  | none =>
    let firstStep := init tid key
    let firstStep :=
      match hook with
      | some f => f firstStep
      | none => firstStep
    (⟨st.pipelines ++ [(tid, ⟨key, firstStep⟩)]⟩, firstStep, true)

/-- A sequence of `getPipeline` calls, returning the final state and the
trace of `(template, firstStep, initialized-now)` results. -/
def runGetPipelines {FS : Type} (init : Nat → String → FS) (hook : Option (FS → FS))
    (st : ForkState FS) : List (Nat × String) → ForkState FS × List (Nat × FS × Bool)
  | [] => (st, [])
  | (tid, key) :: rest =>
    let step := getPipeline init hook st tid key
    let res := runGetPipelines init hook step.1 rest
    (res.1, (tid, step.2.1, step.2.2) :: res.2)

/-- How many calls in a trace initialized the given template. -/
def initCount {FS : Type} (tr : List (Nat × FS × Bool)) (tid : Nat) : Nat :=
  (tr.filter (fun e => e.1 = tid ∧ e.2.2 = true)).length

end ForkCache

namespace Processor

/-- Go errors are modelled as strings. -/
abbrev GoError := String

/-- `SimpleProcessor` from `src/bitflow/sample_processor.go`, restricted to
the fields its `Sample` method touches.  `process` returns Go's
`(*Sample, *Header, error)` triple, with nil pointers as `none`. -/
structure SimpleProcessor (S H : Type) where
  description : String
  process : Option (S → H → Option S × Option H × Option GoError)

/-- `SimpleProcessor.String` from the source. -/
def SimpleProcessor.str {S H : Type} (p : SimpleProcessor S H) : String :=
  if p.description = "" then "SimpleProcessor" else p.description

/-- `SimpleProcessor.Sample` from the source.  `sink` is the configured
outgoing sink (`NoopProcessor.Sample` forwards to `GetSink().Sample`).  The
first component is the returned error; the second records the sample/header
pair forwarded to the sink, if any. -/
def SimpleProcessor.sampleCall {S H : Type} (p : SimpleProcessor S H)
    (sink : S → H → Option GoError) (s : S) (hd : H) :
    Option GoError × Option (S × H) :=
  match p.process with
  | none => (some (p.str ++ ": Process function is not set"), none)
  | some process =>
    match process s hd with
    | (some s2, some h2, none) => (sink s2 h2, some (s2, h2))
    | (_, _, some e) => (some e, none)
    | (_, _, none) => (none, none)

/-- Witness fixture: a processor whose `Process` bumps the sample. -/
def incrProc : SimpleProcessor Nat Nat :=
  ⟨"", some (fun s h => (some (s + 1), some h, none))⟩

/-- Witness fixture: a processor whose `Process` drops every sample
(nil sample, nil header, nil error). -/
def dropProc : SimpleProcessor Nat Nat :=
  ⟨"", some (fun _ _ => (none, none, none))⟩

/-- Witness fixture: a processor whose `Process` function was never set. -/
def unsetProc : SimpleProcessor Nat Nat := ⟨"", none⟩

/-- Witness fixture: a sink that accepts everything. -/
def nilSink : Nat → Nat → Option GoError := fun _ _ => none

end Processor

namespace Query

/-- Token types of the DSL lexer; the lowering pass only constructs `STR`. -/
inductive TokenType where
  | STR
  | QUOT_STR
deriving DecidableEq

/-- A lexer token (`Token` in the `query` package, positions omitted). -/
structure Token where
  type : TokenType
  lit : String
deriving DecidableEq

/-- `Token.Content()` for the tokens the lowering pass handles (`STR` tokens
carry their literal unchanged). -/
def Token.content (t : Token) : String := t.lit

/-- `strTok` from `src/query/ast_lowering.go`. -/
def strTok (s : String) : Token := ⟨.STR, s⟩

/-- `MultiplexForkName` from `src/query/ast_lowering.go`. -/
def MultiplexForkName : String := "multiplex"

/-- `emptyEndpointToken` from the source; `bitflow.EmptyEndpoint` is defined
outside `src/` and is modelled from the spec, whose section 6 lists the
scheme `empty`, so the token literal is the string "empty" followed by
"://" and "-". -/
def emptyEndpointToken : Token := strTok "empty://-"

/-- The pipeline AST (`PipelineStep` implementations in the `query` package):
`Input`, `Output`, `Step`, `Pipelines`, `Fork` and the lowering-introduced
`MultiInput`.  A pipeline is a list of steps; `Pipelines` holds a list of
pipelines.  Params are ordered token pairs (`map[Token]Token` in Go). -/
inductive PipelineStep where
  | input (toks : List Token)
  | output (tok : Token)
  | step (name : Token) (params : List (Token × Token))
  | pipelines (pipes : List (List PipelineStep))
  | fork (name : Token) (params : List (Token × Token)) (pipes : List (List PipelineStep))
  | multiInput (pipes : List (List PipelineStep))

/-- Lowering errors (`ParserError` messages; positions omitted). -/
abbrev PErr := String

/-- The `PipelineVerification` hook from `src/query/ast_lowering.go`, with Go
`error` results as `Option PErr`. -/
structure Verifier where
  verifyInput : List String → Option PErr
  verifyOutput : String → Option PErr
  verifyStep : Token → List (String × String) → Option PErr
  verifyFork : Token → List (String × String) → Option PErr

/-- `Step.ParamsMap()`: parameter tokens as string pairs. -/
def paramsMap (params : List (Token × Token)) : List (String × String) :=
  params.map (fun p => (p.1.content, p.2.content))

/-- `Step.transformStep` from the source: verify and wrap the error with the
step name. -/
def transformStep (V : Verifier) (name : Token) (params : List (Token × Token)) :
    Except PErr PipelineStep :=
  match V.verifyStep name (paramsMap params) with
  | some e => .error (name.content ++ ": " ++ e)
  | none => .ok (.step name params)

/-- The loop of `Pipelines.transformMultiplex` building `newPipes`: the i-th
sub-pipeline gets `Input{strTok(strconv.Itoa(i))}` prepended. -/
def prependInputs (i : Nat) : List (List PipelineStep) → List (List PipelineStep)
  | [] => []
  | p :: rest => (.input [strTok (Nat.repr i)] :: p) :: prependInputs (i + 1) rest

mutual

/-- Termination measure: the weight of one step (head inputs weigh nothing,
nested pipeline groups weigh their contents). -/
def msize : PipelineStep → Nat
  | .input _ => 0
  | .output _ => 0
  | .step _ _ => 0
  | .multiInput ps => 1 + msizePipes ps + ps.length
  | .pipelines ps => 1 + msizePipes ps + ps.length
  | .fork _ _ ps => 1 + msizePipes ps + ps.length

/-- Termination measure of a pipeline. -/
def msizePipe : List PipelineStep → Nat
  | [] => 0
  | s :: rest => 1 + msize s + msizePipe rest

/-- Termination measure of a list of pipelines. -/
def msizePipes : List (List PipelineStep) → Nat
  | [] => 0
  | p :: rest => 2 + msizePipe p + msizePipes rest

end

mutual

/-- `Pipeline.transform` from `src/query/ast_lowering.go`: handle a head
`Input` (verified only when `isInput`) or a head `Pipelines` (turned into a
`MultiInput` when `isInput`; left for the step loop otherwise), then
transform the remaining steps. -/
def transform (V : Verifier) (pipe : List PipelineStep) (isInput : Bool) :
    Except PErr (List PipelineStep) :=
  match pipe with
  | [] => .error "Empty pipeline is not allowed"
  | .input toks :: rest =>
    if isInput then
      match V.verifyInput (toks.map Token.content) with
      | some e => .error e
      | none =>
        match transformSteps V rest with
        | .error e => .error e
        | .ok r => .ok (.input toks :: r)
    else
      match transformSteps V rest with
      | .error e => .error e
      | .ok r => .ok (.input toks :: r)
  | .pipelines ps :: rest =>
    if isInput then
      match transformEach V ps true with
      | .error e => .error e
      | .ok ps2 =>
        match transformSteps V rest with
        | .error e => .error e
        | .ok r => .ok (.multiInput ps2 :: r)
    else transformSteps V (.pipelines ps :: rest)
  | s :: rest => transformSteps V (s :: rest)
termination_by 2 * msizePipe pipe + 3
decreasing_by
  all_goals try simp [msizePipe, msize, msizePipes]
  all_goals omega

/-- One iteration of the step loop of `Pipeline.transform` (the `switch` over
the step type): each step is verified or lowered; `Pipelines` becomes a
multiplex fork, anything unexpected (such as a mid-pipeline `Input`) is an
error. -/
def transformOne (V : Verifier) (s : PipelineStep) : Except PErr PipelineStep :=
  match s with
  | .output tok =>
    match V.verifyOutput tok.content with
    | some e => .error e
    | none => .ok (.output tok)
  | .step name params => transformStep V name params
  | .pipelines ps => transformMultiplex V ps
  | .fork name params ps => transformFork V name params ps
  | _ => .error "Unsupported pipeline step type during transformation"
termination_by 2 * msize s + 1
decreasing_by
  all_goals try simp [msizePipe, msize, msizePipes]
  all_goals omega

/-- The step loop of `Pipeline.transform`, appending the result of each
iteration (an error breaks the loop). -/
def transformSteps (V : Verifier) (steps : List PipelineStep) :
    Except PErr (List PipelineStep) :=
  match steps with
  | [] => .ok []
  | s :: rest =>
    match transformOne V s with
    | .error e => .error e
    | .ok n =>
      match transformSteps V rest with
      | .error e => .error e
      | .ok r => .ok (n :: r)
termination_by 2 * msizePipe steps + 2
decreasing_by
  all_goals try simp [msizePipe, msize, msizePipes]
  all_goals omega

/-- The sub-pipeline loops of `transformMultiInput` (with `isInput = true`)
and `transformFork` (with `isInput = false`). -/
def transformEach (V : Verifier) (pipes : List (List PipelineStep)) (isInput : Bool) :
    Except PErr (List (List PipelineStep)) :=
  match pipes with
  | [] => .ok []
  | p :: rest =>
    match transform V p isInput with
    | .error e => .error e
    | .ok q =>
      match transformEach V rest isInput with
      | .error e => .error e
      | .ok qs => .ok (q :: qs)
termination_by 2 * msizePipes pipes
decreasing_by
  all_goals try simp [msizePipe, msize, msizePipes]
  all_goals omega

/-- `Pipelines.transformMultiplex` from the source: prepend `Input(i)` to the
i-th sub-pipeline and lower the result as a fork named `multiplex` with empty
parameters. -/
def transformMultiplex (V : Verifier) (pipes : List (List PipelineStep)) :
    Except PErr PipelineStep :=
  transformFork V (strTok MultiplexForkName) [] (prependInputs 0 pipes)
termination_by 2 * (msizePipes pipes + pipes.length) + 2
decreasing_by
  have hp : ∀ (k : Nat) (l : List (List PipelineStep)),
      msizePipes (prependInputs k l) = msizePipes l + l.length := by
    intro k l
    induction l generalizing k with
    | nil => rfl
    | cons p rest ih =>
      simp [prependInputs, msizePipes, msizePipe, msize, ih]
      omega
  simp [hp]
  try omega

/-- `Fork.transformFork` from the source: verify the fork, then transform
every sub-pipeline with `isInput = false`. -/
def transformFork (V : Verifier) (name : Token) (params : List (Token × Token))
    (pipes : List (List PipelineStep)) : Except PErr PipelineStep :=
  match V.verifyFork name (paramsMap params) with
  | some e => .error e
  | none =>
    match transformEach V pipes false with
    | .error e => .error e
    | .ok ps2 => .ok (.fork name params ps2)
termination_by 2 * msizePipes pipes + 1
decreasing_by
  all_goals simp [msizePipe, msize, msizePipes]

end

/-- `headIsInput res` holds when the transformed pipeline already starts with
an `Input` or `MultiInput` step. -/
def headIsInput : List PipelineStep → Bool
  | .input _ :: _ => true
  | .multiInput _ :: _ => true
  | _ => false

/-- `Pipeline.Transform` from `src/query/ast_lowering.go`: transform, then
prepend the synthetic empty-endpoint `Input` unless the result already starts
with an `Input` or `MultiInput`.  (`res[0]` on an empty result would panic in
Go; that branch is provably unreachable.) -/
def Transform (V : Verifier) (pipe : List PipelineStep) :
    Except PErr (List PipelineStep) :=
  match transform V pipe true with
  | .error e => .error e
  | .ok res =>
    match res with
    | .input toks :: rest => .ok (.input toks :: rest)
    | .multiInput ps :: rest => .ok (.multiInput ps :: rest)
    | [] => .error "index out of range"
    | _ => .ok (.input [emptyEndpointToken] :: res)

/-- A verifier that accepts everything (used for concrete evaluations). -/
def acceptAll : Verifier := ⟨fun _ => none, fun _ => none, fun _ _ => none, fun _ _ => none⟩

end Query

namespace Csv

theorem fieldsAux_run (sep : Char) :
    ∀ (chunk acc l : Chars), sep ∉ chunk →
      fieldsAux sep acc (chunk ++ l) = fieldsAux sep (chunk.reverse ++ acc) l := by
  intro chunk
  induction chunk with
  | nil => intro acc l _; simp
  | cons c cs ih =>
    intro acc l hsep
    have hc : ¬(c = sep) := fun hh => hsep (by simp [hh])
    simp only [List.cons_append, fieldsAux, if_neg hc, List.append_eq]
    rw [ih (c :: acc) l (fun hm => hsep (List.mem_cons_of_mem _ hm))]
    simp

theorem fieldsAux_sep (sep : Char) (acc rest : Chars) (hacc : acc ≠ []) :
    fieldsAux sep acc (sep :: rest) = acc.reverse :: fieldsAux sep [] rest := by
  simp [fieldsAux, hacc]

theorem fieldsFunc_join (sep : Char) :
    ∀ chunks : List Chars, (∀ c ∈ chunks, c ≠ [] ∧ sep ∉ c) →
      fieldsFunc sep (joinSep sep chunks) = chunks := by
  intro chunks
  induction chunks with
  | nil => intro _; rfl
  | cons c cs ih =>
    intro h
    have hc := h c (by simp)
    cases cs with
    | nil =>
      show fieldsAux sep [] (joinSep sep [c]) = [c]
      have : joinSep sep [c] = c ++ [] := by simp [joinSep]
      rw [this, fieldsAux_run sep c [] [] hc.2]
      simp [fieldsAux, hc.1]
    | cons c2 cs2 =>
      show fieldsAux sep [] (joinSep sep (c :: c2 :: cs2)) = c :: c2 :: cs2
      have hj : joinSep sep (c :: c2 :: cs2) = c ++ sep :: joinSep sep (c2 :: cs2) := rfl
      rw [hj, fieldsAux_run sep c [] _ hc.2]
      rw [fieldsAux_sep sep _ _ (by simp [hc.1])]
      simp only [List.append_nil, List.reverse_reverse]
      rw [show fieldsAux sep [] (joinSep sep (c2 :: cs2)) =
            fieldsFunc sep (joinSep sep (c2 :: cs2)) from rfl]
      rw [ih (fun x hx => h x (List.mem_cons_of_mem _ hx))]

theorem mem_joinSep (sep x : Char) :
    ∀ chunks : List Chars, x ∈ joinSep sep chunks → x = sep ∨ ∃ c ∈ chunks, x ∈ c := by
  intro chunks
  induction chunks with
  | nil => intro h; simp [joinSep] at h
  | cons c cs ih =>
    cases cs with
    | nil =>
      intro h
      simp [joinSep] at h
      exact Or.inr ⟨c, by simp, h⟩
    | cons c2 cs2 =>
      intro h
      have hj : joinSep sep (c :: c2 :: cs2) = c ++ sep :: joinSep sep (c2 :: cs2) := rfl
      rw [hj] at h
      rcases List.mem_append.mp h with h1 | h2
      · exact Or.inr ⟨c, by simp, h1⟩
      · rcases List.mem_cons.mp h2 with h3 | h4
        · exact Or.inl h3
        · rcases ih h4 with h5 | ⟨d, hd, hxd⟩
          · exact Or.inl h5
          · exact Or.inr ⟨d, List.mem_cons_of_mem _ hd, hxd⟩

theorem readLine_no_newline :
    ∀ input : Chars, '\n' ∉ input → readLine input = (input, [], true) := by
  intro input
  induction input with
  | nil => intro _; rfl
  | cons c rest ih =>
    intro h
    have hc : ¬(c = csvNewline) := fun hh => h (by simp [hh, csvNewline])
    simp [readLine, hc, ih (fun hm => h (List.mem_cons_of_mem _ hm))]

theorem readLine_newline (line rest : Chars) (h : '\n' ∉ line) :
    readLine (line ++ '\n' :: rest) = (line ++ ['\n'], rest, false) := by
  induction line with
  | nil => simp [readLine, csvNewline]
  | cons c cs ih =>
    have hc : ¬(c = csvNewline) := fun hh => h (by simp [hh, csvNewline])
    simp [readLine, hc, ih (fun hm => h (List.mem_cons_of_mem _ hm))]

theorem readCsvLine_terminated (line rest : Chars) (h : '\n' ∉ line) :
    readCsvLine (line ++ '\n' :: rest) = ((fieldsFunc csvSeparator line, false), rest) := by
  unfold readCsvLine
  rw [readLine_newline line rest h]
  have hne : line ++ ['\n'] ≠ [] := by simp
  simp only [hne, if_false]
  rw [List.dropLast_concat]

theorem readCsvLine_eof (input : Chars) (hne : input ≠ []) (h : '\n' ∉ input) :
    readCsvLine input = ((fieldsFunc csvSeparator input.dropLast, true), []) := by
  unfold readCsvLine
  rw [readLine_no_newline input h]
  simp [hne]

end Csv

namespace Csv

theorem takeWhile_tagChunk (k v : Chars) (hk : '=' ∉ k) :
    (k ++ '=' :: v).takeWhile (fun c => c ≠ '=') = k := by
  induction k with
  | nil =>
    rw [List.nil_append, List.takeWhile_cons_of_neg (by simp)]
  | cons c cs ih =>
    have hc : c ≠ '=' := fun hh => hk (by simp [hh])
    rw [List.cons_append, List.takeWhile_cons_of_pos (by simp [hc])]
    rw [ih (fun hm => hk (List.mem_cons_of_mem _ hm))]

theorem dropWhile_tagChunk (k v : Chars) (hk : '=' ∉ k) :
    (k ++ '=' :: v).dropWhile (fun c => c ≠ '=') = '=' :: v := by
  induction k with
  | nil =>
    rw [List.nil_append, List.dropWhile_cons_of_neg (by simp)]
  | cons c cs ih =>
    have hc : c ≠ '=' := fun hh => hk (by simp [hh])
    rw [List.cons_append, List.dropWhile_cons_of_pos (by simp [hc])]
    exact ih (fun hm => hk (List.mem_cons_of_mem _ hm))

theorem splitPair_tagChunk (p : Chars × Chars) (hk : '=' ∉ p.1) :
    splitPair (tagChunk p) = some p := by
  obtain ⟨k, v⟩ := p
  unfold splitPair tagChunk
  have hmem : '=' ∈ k ++ '=' :: v := by simp
  rw [if_pos hmem, takeWhile_tagChunk k v hk, dropWhile_tagChunk k v hk]
  simp

theorem mapM_splitPair (tags : List (Chars × Chars)) (hk : ∀ p ∈ tags, '=' ∉ p.1) :
    (tags.map tagChunk).mapM splitPair = some tags := by
  induction tags with
  | nil => rfl
  | cons p rest ih =>
    simp only [List.map_cons, List.mapM_cons]
    rw [splitPair_tagChunk p (hk p (by simp))]
    rw [ih (fun q hq => hk q (List.mem_cons_of_mem _ hq))]
    rfl

theorem parseTagString_tagString (tags : List (Chars × Chars))
    (hnd : (tags.map Prod.fst).Nodup) (hwf : ∀ p ∈ tags, tagWf p) :
    parseTagString (tagString tags) = some tags := by
  unfold parseTagString tagString
  have hchunks : fieldsFunc ' ' (joinSep ' ' (tags.map tagChunk)) = tags.map tagChunk := by
    apply fieldsFunc_join
    intro c hc
    rcases List.mem_map.mp hc with ⟨p, hp, rfl⟩
    have hw := hwf p hp
    refine ⟨by simp [tagChunk], ?_⟩
    intro hmem
    unfold tagChunk at hmem
    rcases List.mem_append.mp hmem with h1 | h2
    · exact hw.2.1 h1
    · rcases List.mem_cons.mp h2 with h3 | h4
      · exact absurd h3 (by decide)
      · exact hw.2.2.1 h4
  rw [hchunks, mapM_splitPair tags (fun p hp => (hwf p hp).1)]
  simp [hnd]

theorem tagString_ne_nil (tags : List (Chars × Chars)) (h : tags ≠ []) :
    tagString tags ≠ [] := by
  cases tags with
  | nil => exact absurd rfl h
  | cons p rest =>
    cases rest with
    | nil => simp [tagString, joinSep, tagChunk]
    | cons q qs =>
      have : tagString (p :: q :: qs) =
          tagChunk p ++ ' ' :: joinSep ' ' ((q :: qs).map tagChunk) := rfl
      rw [this]
      simp

theorem not_mem_tagString (x : Char) (hxs : x ≠ ' ') (hxe : x ≠ '=')
    (tags : List (Chars × Chars)) (h : ∀ p ∈ tags, x ∉ p.1 ∧ x ∉ p.2) :
    x ∉ tagString tags := by
  intro hmem
  rcases mem_joinSep ' ' x (tags.map tagChunk) hmem with h1 | ⟨c, hc, hxc⟩
  · exact hxs h1
  · rcases List.mem_map.mp hc with ⟨p, hp, rfl⟩
    have hw := h p hp
    unfold tagChunk at hxc
    rcases List.mem_append.mp hxc with h1 | h2
    · exact hw.1 h1
    · rcases List.mem_cons.mp h2 with h3 | h4
      · exact hxe h3
      · exact hw.2 h4

theorem writeValues_eq {V : Type} (printVal : V → Chars) (vs : List V) :
    writeValues printVal vs =
      ((vs.map printVal).map (fun c => csvSeparator :: c)).flatten := by
  induction vs with
  | nil => rfl
  | cons v rest ih => simp [writeValues, ih]

theorem joinSep_cons (sep : Char) (a : Chars) (l : List Chars) :
    joinSep sep (a :: l) = a ++ (l.map (fun c => sep :: c)).flatten := by
  induction l generalizing a with
  | nil => simp [joinSep]
  | cons b bs ih =>
    have : joinSep sep (a :: b :: bs) = a ++ sep :: joinSep sep (b :: bs) := rfl
    rw [this, ih b]
    simp

theorem WriteSample_join {V T : Type} (printVal : V → Chars) (printTime : T → Chars)
    (s : CsvSample V T) (h : Header) :
    WriteSample printVal printTime s h =
      joinSep csvSeparator (printTime s.time ::
        ((if h.hasTags then [tagString s.tags] else []) ++ s.values.map printVal))
        ++ [csvNewline] := by
  cases hh : h.hasTags with
  | false =>
    simp only [WriteSample, hh, if_false, joinSep_cons, writeValues_eq]
    simp
  | true =>
    simp only [WriteSample, hh, if_true, joinSep_cons, writeValues_eq]
    simp

theorem parseValues_print {V : Type} (parseVal : Chars → Option V)
    (printVal : V → Chars) (vs : List V)
    (h : ∀ v ∈ vs, parseVal (printVal v) = some v) :
    parseValues parseVal (vs.map printVal) = some vs := by
  induction vs with
  | nil => rfl
  | cons v rest ih =>
    unfold parseValues at *
    simp only [List.map_cons, List.mapM_cons]
    rw [h v (by simp), ih (fun w hw => h w (List.mem_cons_of_mem _ hw))]
    rfl

end Csv

namespace Csv

/-- Claim C1 (counterexample): the claim fails as stated.  For the sample
with no tags at all (so its tag values trivially contain no reserved bytes)
and an empty value vector, written under a header with `HasTags = true`, the
written line is `TIME,` followed by newline; `strings.FieldsFunc` drops the
empty tag column, so reading back fails with the "Sample too short" error
instead of returning the sample. -/
theorem csv_roundtrip_claim_cex :
    (⟨0, [], []⟩ : CsvSample Nat Nat).tags = [] ∧
    (ReadSample decParse decParse ⟨true, []⟩
        (WriteSample decPrint decPrint (⟨0, [], []⟩ : CsvSample Nat Nat) ⟨true, []⟩)).1
      = .error .sampleTooShort ∧
    (ReadSample decParse decParse ⟨true, []⟩
        (WriteSample decPrint decPrint (⟨0, [], []⟩ : CsvSample Nat Nat) ⟨true, []⟩)).1
      ≠ .ok (⟨0, [], []⟩ : CsvSample Nat Nat) := by
  decide

/-- Claim C1 (amended): writing a sample with `CsvMarshaller.WriteSample`
under a header and reading the bytes back with `CsvMarshaller.ReadSample`
under the same header returns the identical sample and consumes the whole
stream, provided that: the abstract timestamp and value formatting round-trips
and produces non-empty text free of comma and newline; when the header has
tags, the sample carries at least one tag, tag keys are distinct, and tag keys
and values avoid the reserved bytes (space, `=` in keys, comma, newline); and
when the header has no tags the sample carries none.  (The counterexample
forces the non-empty-tags condition: an empty tag column is dropped by
`strings.FieldsFunc` and the line mis-parses.) -/
theorem csv_roundtrip_amended {V T : Type}
    (printVal : V → Chars) (parseVal : Chars → Option V)
    (printTime : T → Chars) (parseTime : Chars → Option T)
    (h : Header) (s : CsvSample V T)
    (hTime : parseTime (printTime s.time) = some s.time)
    (hTimeNe : printTime s.time ≠ [])
    (hTimeComma : ',' ∉ printTime s.time)
    (hTimeNl : '\n' ∉ printTime s.time)
    (hVals : ∀ v ∈ s.values, parseVal (printVal v) = some v ∧ printVal v ≠ [] ∧
      ',' ∉ printVal v ∧ '\n' ∉ printVal v)
    (hTagsT : h.hasTags = true →
      s.tags ≠ [] ∧ (s.tags.map Prod.fst).Nodup ∧ ∀ p ∈ s.tags, tagWf p)
    (hTagsF : h.hasTags = false → s.tags = []) :
    ReadSample parseVal parseTime h (WriteSample printVal printTime s h) = (.ok s, []) := by
  obtain ⟨st, sv, stg⟩ := s
  dsimp only at *
  rw [WriteSample_join]
  dsimp only
  cases hh : h.hasTags with
  | false =>
    have hstags : stg = [] := hTagsF hh
    rw [if_neg (by simp), List.nil_append]
    have hchunks : ∀ c ∈ printTime st :: sv.map printVal,
        c ≠ [] ∧ csvSeparator ∉ c := by
      intro c hc
      rcases List.mem_cons.mp hc with rfl | hc2
      · exact ⟨hTimeNe, hTimeComma⟩
      · rcases List.mem_map.mp hc2 with ⟨v, hv, rfl⟩
        exact ⟨(hVals v hv).2.1, (hVals v hv).2.2.1⟩
    have hnl : '\n' ∉ joinSep csvSeparator (printTime st :: sv.map printVal) := by
      intro hm
      rcases mem_joinSep _ _ _ hm with h1 | ⟨c, hc, hxc⟩
      · exact absurd h1 (by decide)
      · rcases List.mem_cons.mp hc with rfl | hc2
        · exact hTimeNl hxc
        · rcases List.mem_map.mp hc2 with ⟨v, hv, rfl⟩
          exact (hVals v hv).2.2.2 hxc
    unfold ReadSample
    rw [show joinSep csvSeparator (printTime st :: sv.map printVal) ++ [csvNewline]
          = joinSep csvSeparator (printTime st :: sv.map printVal)
              ++ '\n' :: ([] : Chars) from rfl]
    rw [readCsvLine_terminated _ _ hnl]
    rw [fieldsFunc_join csvSeparator _ hchunks]
    simp only [hh, hTime]
    rw [parseValues_print parseVal printVal sv (fun v hv => (hVals v hv).1)]
    simp [hstags]
  | true =>
    obtain ⟨hne, hnd, hwf⟩ := hTagsT hh
    rw [if_pos rfl, List.singleton_append]
    have htagc : csvSeparator ∉ tagString stg := by
      apply not_mem_tagString ',' (by decide) (by decide)
      intro p hp
      exact ⟨(hwf p hp).2.2.2.1, (hwf p hp).2.2.2.2.1⟩
    have htagnl : '\n' ∉ tagString stg := by
      apply not_mem_tagString '\n' (by decide) (by decide)
      intro p hp
      exact ⟨(hwf p hp).2.2.2.2.2.1, (hwf p hp).2.2.2.2.2.2⟩
    have hchunks : ∀ c ∈ printTime st :: tagString stg :: sv.map printVal,
        c ≠ [] ∧ csvSeparator ∉ c := by
      intro c hc
      rcases List.mem_cons.mp hc with rfl | hc2
      · exact ⟨hTimeNe, hTimeComma⟩
      · rcases List.mem_cons.mp hc2 with rfl | hc3
        · exact ⟨tagString_ne_nil stg hne, htagc⟩
        · rcases List.mem_map.mp hc3 with ⟨v, hv, rfl⟩
          exact ⟨(hVals v hv).2.1, (hVals v hv).2.2.1⟩
    have hnl : '\n' ∉ joinSep csvSeparator
        (printTime st :: tagString stg :: sv.map printVal) := by
      intro hm
      rcases mem_joinSep _ _ _ hm with h1 | ⟨c, hc, hxc⟩
      · exact absurd h1 (by decide)
      · rcases List.mem_cons.mp hc with rfl | hc2
        · exact hTimeNl hxc
        · rcases List.mem_cons.mp hc2 with rfl | hc3
          · exact htagnl hxc
          · rcases List.mem_map.mp hc3 with ⟨v, hv, rfl⟩
            exact (hVals v hv).2.2.2 hxc
    unfold ReadSample
    rw [show joinSep csvSeparator
          (printTime st :: tagString stg :: sv.map printVal) ++ [csvNewline]
          = joinSep csvSeparator
              (printTime st :: tagString stg :: sv.map printVal)
              ++ '\n' :: ([] : Chars) from rfl]
    rw [readCsvLine_terminated _ _ hnl]
    rw [fieldsFunc_join csvSeparator _ hchunks]
    simp only [hh, hTime]
    rw [parseTagString_tagString stg hnd hwf]
    rw [parseValues_print parseVal printVal sv (fun v hv => (hVals v hv).1)]
    simp


/-- Claim C1 (witness): the amended round trip at a concrete sample with two
values and one tag under a tagged header, instantiating values and timestamps
as decimal-printed naturals. -/
theorem csv_roundtrip_amended_witness :
    (decParse (decPrint 7) = some 7 ∧
      (∀ v ∈ [1, 23], decParse (decPrint v) = some v) ∧
      (⟨7, [1, 23], [("host".data, "h1".data)]⟩ : CsvSample Nat Nat).tags ≠ []) ∧
    ReadSample decParse decParse ⟨true, [['a'], ['b']]⟩
        (WriteSample decPrint decPrint
          (⟨7, [1, 23], [("host".data, "h1".data)]⟩ : CsvSample Nat Nat)
          ⟨true, [['a'], ['b']]⟩)
      = (.ok (⟨7, [1, 23], [("host".data, "h1".data)]⟩ : CsvSample Nat Nat), []) :=
  ⟨⟨by decide, by decide, by decide⟩,
    csv_roundtrip_amended decPrint decParse decPrint decParse
      ⟨true, [['a'], ['b']]⟩ ⟨7, [1, 23], [("host".data, "h1".data)]⟩
      (by decide) (by decide) (by decide) (by decide) (by decide)
      (by decide) (by decide)⟩

/-- Claim C3 (counterexample): the claim fails as stated: EOF in the middle
of a non-empty line does not necessarily produce a framing error.  On the
unterminated input `05`, `ReadSample` silently strips the final character and
successfully parses the remainder as a sample (timestamp 0, no values). -/
theorem csv_eof_midline_success_cex :
    "05".data ≠ [] ∧ '\n' ∉ "05".data ∧
    (ReadSample decParse decParse ⟨false, []⟩ "05".data).1 =
      .ok (⟨0, [], []⟩ : CsvSample Nat Nat) := by
  decide

/-- Claim C3 (amended): EOF on an empty line (exhausted input) returns the
clean `EndOfStream` error from both `ReadSample` and `ReadHeader`; EOF in the
middle of a non-empty line is not checked: `readCsvLine` silently discards
the final character of the unterminated line, and `ReadSample` then parses
the truncated line exactly as if it had been newline-terminated (so it can
yield a successfully parsed sample rather than an error). -/
theorem csv_eof_behavior_amended {V T : Type} (parseVal : Chars → Option V)
    (parseTime : Chars → Option T) (h : Header) (input : Chars)
    (hne : input ≠ []) (hnl : '\n' ∉ input) :
    ReadSample parseVal parseTime h [] = (.error .endOfStream, []) ∧
    ReadHeader ([] : Chars) = (.error .endOfStream, []) ∧
    readCsvLine input = ((fieldsFunc csvSeparator input.dropLast, true), []) ∧
    (fieldsFunc csvSeparator input.dropLast ≠ [] →
      (ReadSample parseVal parseTime h input).1 =
        (ReadSample parseVal parseTime h (input.dropLast ++ ['\n'])).1) := by
  refine ⟨rfl, rfl, readCsvLine_eof input hne hnl, ?_⟩
  intro hf
  have hnl2 : '\n' ∉ input.dropLast :=
    fun hm => hnl ((List.dropLast_sublist input).subset hm)
  unfold ReadSample
  rw [readCsvLine_eof input hne hnl, readCsvLine_terminated _ [] hnl2]
  cases hfs : fieldsFunc csvSeparator input.dropLast with
  | nil => exact absurd hfs hf
  | cons f0 fs => rfl

/-- Claim C3 (witness): the amended statement at the concrete unterminated
input `05` with decimal parsing and an untagged header. -/
theorem csv_eof_behavior_amended_witness :
    ("05".data ≠ [] ∧ '\n' ∉ "05".data) ∧
    (ReadSample decParse decParse ⟨false, []⟩ [] = (.error .endOfStream, []) ∧
     ReadHeader ([] : Chars) = (.error .endOfStream, []) ∧
     readCsvLine "05".data = ((fieldsFunc csvSeparator "05".data.dropLast, true), []) ∧
     (fieldsFunc csvSeparator "05".data.dropLast ≠ [] →
       (ReadSample decParse decParse ⟨false, []⟩ "05".data).1 =
         (ReadSample decParse decParse ⟨false, []⟩ ("05".data.dropLast ++ ['\n'])).1)) :=
  ⟨⟨by decide, by decide⟩,
    csv_eof_behavior_amended decParse decParse ⟨false, []⟩ "05".data
      (by decide) (by decide)⟩

/-- Claim C9 (counterexample): the claim fails as stated: a line whose value
count (2) differs from the header's field count (1) is read back without any
error, as a sample of arity 2 — `ReadSample` raises no SchemaMismatch. -/
theorem readsample_arity_cex :
    (⟨false, [['a']]⟩ : Header).fields.length = 1 ∧
    (ReadSample decParse decParse ⟨false, [['a']]⟩ ("0,1,2\n".data)).1 =
      .ok (⟨0, [1, 2], []⟩ : CsvSample Nat Nat) ∧
    ([1, 2] : List Nat).length ≠ (⟨false, [['a']]⟩ : Header).fields.length := by
  decide

/-- Claim C9 (amended): `CsvMarshaller.ReadSample` performs no value-count
check against the header at all: its result is completely independent of the
header's field list, so a line whose value column count differs from
`len(header.Fields)` is returned as a successfully parsed sample of that
differing arity rather than rejected with a SchemaMismatch error. -/
theorem readsample_ignores_header_fields {V T : Type} (parseVal : Chars → Option V)
    (parseTime : Chars → Option T) (b : Bool) (fields1 fields2 : List Chars)
    (input : Chars) :
    ReadSample parseVal parseTime ⟨b, fields1⟩ input =
      ReadSample parseVal parseTime ⟨b, fields2⟩ input := rfl

end Csv
namespace Fanout

theorem readValues_writeValues_self {V : Type} (h : Heap V) (a : Nat) (vs : List V)
    (ha : a < h.valueCells.length) : readValues (writeValues h a vs) a = vs := by
  simp [readValues, writeValues, List.getD, List.getElem?_set_self, ha]

theorem readValues_writeValues_ne {V : Type} (h : Heap V) (a b : Nat) (vs : List V)
    (hne : b ≠ a) : readValues (writeValues h a vs) b = readValues h b := by
  simp [readValues, writeValues, List.getD, List.getElem?_set_ne (fun hh => hne hh.symm)]

theorem readTags_writeTags_self {V : Type} (h : Heap V) (a : Nat)
    (ts : List (String × String)) (ha : a < h.tagCells.length) :
    readTags (writeTags h a ts) a = ts := by
  simp [readTags, writeTags, List.getD, List.getElem?_set_self, ha]

theorem readTags_writeTags_ne {V : Type} (h : Heap V) (a b : Nat)
    (ts : List (String × String)) (hne : b ≠ a) :
    readTags (writeTags h a ts) b = readTags h b := by
  simp [readTags, writeTags, List.getD, List.getElem?_set_ne (fun hh => hne hh.symm)]

theorem applyMutation_lengths {V : Type} (h : Heap V) (r : SampleRef)
    (m : SampleMutation V) :
    (applyMutation h r m).valueCells.length = h.valueCells.length ∧
    (applyMutation h r m).tagCells.length = h.tagCells.length := by
  cases m with
  | setValue i v => simp [applyMutation, writeValues]
  | setTag k v => simp [applyMutation, writeTags]

theorem applyMutations_lengths {V : Type} (h : Heap V) (r : SampleRef)
    (ms : List (SampleMutation V)) :
    (applyMutations h r ms).valueCells.length = h.valueCells.length ∧
    (applyMutations h r ms).tagCells.length = h.tagCells.length := by
  induction ms generalizing h with
  | nil => exact ⟨rfl, rfl⟩
  | cons m rest ih =>
    have h1 := applyMutation_lengths h r m
    have h2 := ih (applyMutation h r m)
    exact ⟨h2.1.trans h1.1, h2.2.trans h1.2⟩

theorem readValues_applyMutation_ne {V : Type} (h : Heap V) (r : SampleRef)
    (m : SampleMutation V) (b : Nat) (hne : b ≠ r.valuesAddr) :
    readValues (applyMutation h r m) b = readValues h b := by
  cases m with
  | setValue i v => exact readValues_writeValues_ne h _ b _ hne
  | setTag k v => rfl

theorem readTags_applyMutation_ne {V : Type} (h : Heap V) (r : SampleRef)
    (m : SampleMutation V) (b : Nat) (hne : b ≠ r.tagsAddr) :
    readTags (applyMutation h r m) b = readTags h b := by
  cases m with
  | setValue i v => rfl
  | setTag k v => exact readTags_writeTags_ne h _ b _ hne

theorem readValues_applyMutations_ne {V : Type} (h : Heap V) (r : SampleRef)
    (ms : List (SampleMutation V)) (b : Nat) (hne : b ≠ r.valuesAddr) :
    readValues (applyMutations h r ms) b = readValues h b := by
  induction ms generalizing h with
  | nil => rfl
  | cons m rest ih =>
    exact (ih (applyMutation h r m)).trans (readValues_applyMutation_ne h r m b hne)

theorem readTags_applyMutations_ne {V : Type} (h : Heap V) (r : SampleRef)
    (ms : List (SampleMutation V)) (b : Nat) (hne : b ≠ r.tagsAddr) :
    readTags (applyMutations h r ms) b = readTags h b := by
  induction ms generalizing h with
  | nil => rfl
  | cons m rest ih =>
    exact (ih (applyMutation h r m)).trans (readTags_applyMutation_ne h r m b hne)

theorem readValues_applyMutations_self {V : Type} (h : Heap V) (r : SampleRef)
    (ms : List (SampleMutation V)) (ha : r.valuesAddr < h.valueCells.length) :
    readValues (applyMutations h r ms) r.valuesAddr =
      applyValueMuts (readValues h r.valuesAddr) ms := by
  induction ms generalizing h with
  | nil => rfl
  | cons m rest ih =>
    have ha2 : r.valuesAddr < (applyMutation h r m).valueCells.length := by
      rw [(applyMutation_lengths h r m).1]; exact ha
    rw [show applyMutations h r (m :: rest) = applyMutations (applyMutation h r m) r rest
          from rfl]
    rw [ih (applyMutation h r m) ha2]
    cases m with
    | setValue i v =>
      rw [show applyMutation h r (.setValue i v)
            = writeValues h r.valuesAddr ((readValues h r.valuesAddr).set i v) from rfl]
      rw [readValues_writeValues_self h _ _ ha]
      rfl
    | setTag k v => rfl

theorem readTags_applyMutations_self {V : Type} (h : Heap V) (r : SampleRef)
    (ms : List (SampleMutation V)) (ha : r.tagsAddr < h.tagCells.length) :
    readTags (applyMutations h r ms) r.tagsAddr =
      applyTagMuts (readTags h r.tagsAddr) ms := by
  induction ms generalizing h with
  | nil => rfl
  | cons m rest ih =>
    have ha2 : r.tagsAddr < (applyMutation h r m).tagCells.length := by
      rw [(applyMutation_lengths h r m).2]; exact ha
    rw [show applyMutations h r (m :: rest) = applyMutations (applyMutation h r m) r rest
          from rfl]
    rw [ih (applyMutation h r m) ha2]
    cases m with
    | setValue i v => rfl
    | setTag k v =>
      rw [show applyMutation h r (.setTag k v)
            = writeTags h r.tagsAddr (setTagList (readTags h r.tagsAddr) k v) from rfl]
      rw [readTags_writeTags_self h _ _ ha]
      rfl

theorem readValues_append {V : Type} (h : Heap V) (x : List V) (a : Nat)
    (ha : a < h.valueCells.length) :
    readValues ⟨h.valueCells ++ [x], h.tagCells⟩ a = readValues h a := by
  simp [readValues, List.getD, List.getElem?_append_left ha]

theorem multiplexer_heap_growth {V : Type} (sinks : List (Option (BranchSink V)))
    (s : SampleRef) (h : Heap V) :
    h.valueCells.length ≤ (sinkMultiplexerSample sinks s h).heap.valueCells.length ∧
    h.tagCells.length ≤ (sinkMultiplexerSample sinks s h).heap.tagCells.length := by
  induction sinks generalizing h with
  | nil => exact ⟨Nat.le_refl _, Nat.le_refl _⟩
  | cons o rest ih =>
    cases o with
    | none => exact ih h
    | some b =>
      have hl := applyMutations_lengths
        (deepClone s h).2 (deepClone s h).1 b.mutations
      have h2 := ih (applyMutations (deepClone s h).2 (deepClone s h).1 b.mutations)
      refine ⟨Nat.le_trans ?_ h2.1, Nat.le_trans ?_ h2.2⟩
      · rw [hl.1]
        simp [deepClone]
      · rw [hl.2]
        simp [deepClone]

theorem multiplexer_preserves {V : Type} (sinks : List (Option (BranchSink V)))
    (s : SampleRef) (h : Heap V) (a b : Nat)
    (hva : a < h.valueCells.length) (htb : b < h.tagCells.length) :
    readValues (sinkMultiplexerSample sinks s h).heap a = readValues h a ∧
    readTags (sinkMultiplexerSample sinks s h).heap b = readTags h b := by
  induction sinks generalizing h with
  | nil => exact ⟨rfl, rfl⟩
  | cons o rest ih =>
    cases o with
    | none => exact ih h hva htb
    | some bk =>
      set c := (deepClone s h).1 with hc
      set h1 := (deepClone s h).2 with hh1
      set h2 := applyMutations h1 c bk.mutations with hh2
      have hl1v : h1.valueCells.length = h.valueCells.length + 1 := by
        simp [hh1, deepClone]
      have hl1t : h1.tagCells.length = h.tagCells.length + 1 := by
        simp [hh1, deepClone]
      have hl2 := applyMutations_lengths h1 c bk.mutations
      have hva2 : a < h2.valueCells.length := by
        rw [hh2, hl2.1, hl1v]; omega
      have htb2 : b < h2.tagCells.length := by
        rw [hh2, hl2.2, hl1t]; omega
      have hstep := ih h2 hva2 htb2
      have hcv : c.valuesAddr = h.valueCells.length := by simp [hc, deepClone]
      have hct : c.tagsAddr = h.tagCells.length := by simp [hc, deepClone]
      have hpresv : readValues h2 a = readValues h a := by
        rw [hh2, readValues_applyMutations_ne h1 c bk.mutations a (by omega)]
        rw [hh1]
        exact readValues_append h _ a hva
      have hprest : readTags h2 b = readTags h b := by
        rw [hh2, readTags_applyMutations_ne h1 c bk.mutations b (by omega)]
        rw [hh1]
        simp [readTags, List.getD, List.getElem?_append_left htb, deepClone]
      have hun : sinkMultiplexerSample (some bk :: rest) s h
          = ⟨(sinkMultiplexerSample rest s h2).heap,
             (match bk.result with
              | some e => e :: (sinkMultiplexerSample rest s h2).errors
              | none => (sinkMultiplexerSample rest s h2).errors),
             c :: (sinkMultiplexerSample rest s h2).delivered⟩ := rfl
      rw [hun]
      exact ⟨hstep.1.trans hpresv, hstep.2.trans hprest⟩

end Fanout
namespace Fanout

/-- Claim C2 (amended): the fork fan-out (`sinkMultiplexer.Sample`, identical
loop in `multiPipelineSink.Sample`) hands every non-nil branch sink a deep
clone of the sample: each delivered reference carries the original timestamp
but a fresh value-vector address and a fresh tag-map address, all deliveries
are pairwise non-aliased and distinct from the original sample's cells, and
after the fan-out every branch's cells hold exactly the original data changed
by that branch's own mutations only — a mutation performed in one branch is
never observable in the sample delivered to any other branch.  (The original
claim is refuted for `AggregateSink.Sample`, which clones nothing; see the
counterexample.) -/
theorem fork_deepclone_isolation {V : Type} (sinks : List (Option (BranchSink V)))
    (s : SampleRef) (h : Heap V)
    (hv : s.valuesAddr < h.valueCells.length)
    (ht : s.tagsAddr < h.tagCells.length) :
    (∀ r ∈ (sinkMultiplexerSample sinks s h).delivered,
        r.time = s.time ∧
        h.valueCells.length ≤ r.valuesAddr ∧ h.tagCells.length ≤ r.tagsAddr ∧
        r.valuesAddr ≠ s.valuesAddr ∧ r.tagsAddr ≠ s.tagsAddr) ∧
    (sinkMultiplexerSample sinks s h).delivered.Pairwise
      (fun r1 r2 => r1.valuesAddr < r2.valuesAddr ∧ r1.tagsAddr < r2.tagsAddr) ∧
    List.Forall₂ (fun r bk =>
        readValues (sinkMultiplexerSample sinks s h).heap r.valuesAddr =
          applyValueMuts (readValues h s.valuesAddr) bk.mutations ∧
        readTags (sinkMultiplexerSample sinks s h).heap r.tagsAddr =
          applyTagMuts (readTags h s.tagsAddr) bk.mutations)
      (sinkMultiplexerSample sinks s h).delivered (sinks.filterMap id) := by
  induction sinks generalizing h with
  | nil =>
    refine ⟨by simp [sinkMultiplexerSample], ?_, ?_⟩
    · simp [sinkMultiplexerSample]
    · simp [sinkMultiplexerSample]
  | cons o rest ih =>
    cases o with
    | none => simpa [sinkMultiplexerSample] using ih h hv ht
    | some bk =>
      set c := (deepClone s h).1 with hc
      set h1 := (deepClone s h).2 with hh1
      set h2 := applyMutations h1 c bk.mutations with hh2
      have hl1v : h1.valueCells.length = h.valueCells.length + 1 := by
        simp [hh1, deepClone]
      have hl1t : h1.tagCells.length = h.tagCells.length + 1 := by
        simp [hh1, deepClone]
      have hl2 := applyMutations_lengths h1 c bk.mutations
      have hcv : c.valuesAddr = h.valueCells.length := by simp [hc, deepClone]
      have hct : c.tagsAddr = h.tagCells.length := by simp [hc, deepClone]
      have hctime : c.time = s.time := by simp [hc, deepClone]
      have hv2 : s.valuesAddr < h2.valueCells.length := by
        rw [hh2, hl2.1, hl1v]; omega
      have ht2 : s.tagsAddr < h2.tagCells.length := by
        rw [hh2, hl2.2, hl1t]; omega
      have hbase_v : readValues h2 s.valuesAddr = readValues h s.valuesAddr := by
        rw [hh2, readValues_applyMutations_ne h1 c bk.mutations s.valuesAddr (by omega)]
        rw [hh1]
        exact readValues_append h _ s.valuesAddr hv
      have hbase_t : readTags h2 s.tagsAddr = readTags h s.tagsAddr := by
        rw [hh2, readTags_applyMutations_ne h1 c bk.mutations s.tagsAddr (by omega)]
        rw [hh1]
        simp [readTags, List.getD, List.getElem?_append_left ht, deepClone]
      have hun : sinkMultiplexerSample (some bk :: rest) s h
          = ⟨(sinkMultiplexerSample rest s h2).heap,
             (match bk.result with
              | some e => e :: (sinkMultiplexerSample rest s h2).errors
              | none => (sinkMultiplexerSample rest s h2).errors),
             c :: (sinkMultiplexerSample rest s h2).delivered⟩ := rfl
      obtain ⟨ih1, ih2, ih3⟩ := ih h2 hv2 ht2
      rw [hbase_v, hbase_t] at ih3
      rw [hun]
      refine ⟨?_, ?_, ?_⟩
      · intro r hr
        rcases List.mem_cons.mp hr with rfl | hr2
        · exact ⟨hctime, by omega, by omega, by omega, by omega⟩
        · obtain ⟨hrt, hrv, hrtg, hrs1, hrs2⟩ := ih1 r hr2
          refine ⟨hrt, ?_, ?_, hrs1, hrs2⟩
          · rw [hh2, hl2.1, hl1v] at hrv; omega
          · rw [hh2, hl2.2, hl1t] at hrtg; omega
      · refine List.Pairwise.cons ?_ ih2
        intro r hr
        obtain ⟨hrt, hrv, hrtg, _, _⟩ := ih1 r hr
        rw [hh2, hl2.1, hl1v] at hrv
        rw [hh2, hl2.2, hl1t] at hrtg
        constructor
        · omega
        · omega
      · have hfm : (some bk :: rest).filterMap id = bk :: rest.filterMap id := by simp
        rw [hfm]
        refine List.Forall₂.cons ⟨?_, ?_⟩ ih3
        · have hp := multiplexer_preserves rest s h2 c.valuesAddr c.tagsAddr
            (by rw [hh2, hl2.1, hl1v]; omega) (by rw [hh2, hl2.2, hl1t]; omega)
          rw [hp.1]
          rw [hh2, readValues_applyMutations_self h1 c bk.mutations (by rw [hl1v]; omega)]
          have hinit : readValues h1 c.valuesAddr = readValues h s.valuesAddr := by
            rw [hh1, hcv]
            simp [readValues, deepClone, List.getD]
          rw [hinit]
        · have hp := multiplexer_preserves rest s h2 c.valuesAddr c.tagsAddr
            (by rw [hh2, hl2.1, hl1v]; omega) (by rw [hh2, hl2.2, hl1t]; omega)
          rw [hp.2]
          rw [hh2, readTags_applyMutations_self h1 c bk.mutations (by rw [hl1t]; omega)]
          have hinit : readTags h1 c.tagsAddr = readTags h s.tagsAddr := by
            rw [hh1, hct]
            simp [readTags, deepClone, List.getD]
          rw [hinit]

end Fanout
namespace Fanout

/-- Claim C2 (counterexample): the claim fails as stated for
`AggregateSink.Sample` (a processor forwarding one sample to several
configured sinks): both sinks receive the very same sample reference — not a
deep clone — so the second sink observes the first branch's mutation of value
slot 0 (the shared cell now reads `[9]` instead of the original `[1]`). -/
theorem aggregate_sink_shares_sample_cex :
    (aggregateSinkSample aggBranches aggSample aggHeap).delivered =
      [aggSample, aggSample] ∧
    readValues aggHeap aggSample.valuesAddr = [1] ∧
    readValues (aggregateSinkSample aggBranches aggSample aggHeap).heap
      aggSample.valuesAddr = [9] := by
  decide

/-- Claim C2 (witness): the amended isolation statement at the concrete heap
`wHeap`, sample `wSample` and branch sinks `wSinks`. -/
theorem fork_deepclone_isolation_witness :
    (wSample.valuesAddr < wHeap.valueCells.length ∧
     wSample.tagsAddr < wHeap.tagCells.length) ∧
    ((∀ r ∈ (sinkMultiplexerSample wSinks wSample wHeap).delivered,
        r.time = wSample.time ∧
        wHeap.valueCells.length ≤ r.valuesAddr ∧
        wHeap.tagCells.length ≤ r.tagsAddr ∧
        r.valuesAddr ≠ wSample.valuesAddr ∧ r.tagsAddr ≠ wSample.tagsAddr) ∧
     (sinkMultiplexerSample wSinks wSample wHeap).delivered.Pairwise
       (fun r1 r2 => r1.valuesAddr < r2.valuesAddr ∧ r1.tagsAddr < r2.tagsAddr) ∧
     List.Forall₂ (fun r bk =>
        readValues (sinkMultiplexerSample wSinks wSample wHeap).heap r.valuesAddr =
          applyValueMuts (readValues wHeap wSample.valuesAddr) bk.mutations ∧
        readTags (sinkMultiplexerSample wSinks wSample wHeap).heap r.tagsAddr =
          applyTagMuts (readTags wHeap wSample.tagsAddr) bk.mutations)
       (sinkMultiplexerSample wSinks wSample wHeap).delivered
       (wSinks.filterMap id)) :=
  ⟨⟨by decide, by decide⟩,
    fork_deepclone_isolation wSinks wSample wHeap (by decide) (by decide)⟩

/-- Claim C8: during fork fan-out, every non-nil sink is invoked (one
delivery per non-nil sink, regardless of the errors earlier branches
returned), the multi-error collects exactly the per-branch errors in branch
order, and `NilOrError` flattens it to nil precisely when no branch failed. -/
theorem fanout_accumulates_errors {V : Type} (sinks : List (Option (BranchSink V)))
    (s : SampleRef) (h : Heap V) :
    (sinkMultiplexerSample sinks s h).delivered.length = (sinks.filterMap id).length ∧
    (sinkMultiplexerSample sinks s h).errors =
      (sinks.filterMap id).filterMap (fun b => b.result) ∧
    (nilOrError (sinkMultiplexerSample sinks s h).errors = none ↔
      ∀ b ∈ sinks.filterMap id, b.result = none) := by
  have hmain : ∀ (sinks : List (Option (BranchSink V))) (h : Heap V),
      (sinkMultiplexerSample sinks s h).delivered.length =
        (sinks.filterMap id).length ∧
      (sinkMultiplexerSample sinks s h).errors =
        (sinks.filterMap id).filterMap (fun b => b.result) := by
    intro sinks
    induction sinks with
    | nil => intro h; exact ⟨rfl, rfl⟩
    | cons o rest ih =>
      intro h
      cases o with
      | none => simpa [sinkMultiplexerSample] using ih h
      | some bk =>
        have hun : sinkMultiplexerSample (some bk :: rest) s h
            = ⟨(sinkMultiplexerSample rest s
                  (applyMutations (deepClone s h).2 (deepClone s h).1 bk.mutations)).heap,
               (match bk.result with
                | some e => e :: (sinkMultiplexerSample rest s
                    (applyMutations (deepClone s h).2 (deepClone s h).1 bk.mutations)).errors
                | none => (sinkMultiplexerSample rest s
                    (applyMutations (deepClone s h).2 (deepClone s h).1 bk.mutations)).errors),
               (deepClone s h).1 :: (sinkMultiplexerSample rest s
                  (applyMutations (deepClone s h).2 (deepClone s h).1 bk.mutations)).delivered⟩ :=
          rfl
        rw [hun]
        obtain ⟨ihl, ihe⟩ :=
          ih (applyMutations (deepClone s h).2 (deepClone s h).1 bk.mutations)
        constructor
        · simpa using ihl
        · cases hbr : bk.result with
          | none => simpa [List.filterMap_cons, hbr] using ihe
          | some e => simpa [List.filterMap_cons, hbr] using ihe
  refine ⟨(hmain sinks h).1, (hmain sinks h).2, ?_⟩
  rw [(hmain sinks h).2]
  constructor
  · intro hn
    have hnil : (sinks.filterMap id).filterMap (fun b => b.result) = [] := by
      by_contra hne
      simp [nilOrError, hne] at hn
    exact List.filterMap_eq_nil_iff.mp hnil
  · intro hall
    have hnil : (sinks.filterMap id).filterMap (fun b => b.result) = [] :=
      List.filterMap_eq_nil_iff.mpr hall
    simp [nilOrError, hnil]

end Fanout
namespace Transport

/-- Claim C4: the parallel sample stream's error is sticky.  Whenever the
stream's shared `err` field is non-nil and different from `EndOfStream`
(`io.EOF`), `BufferedSample.WaitDone` returns exactly that error
immediately — its first check fires before the `done` condition is ever
consulted, so the result is the same for every `done` state, i.e. for every
sample of the stream and for every subsequent call (the stream only ever
sets `err`, never clears it, so the snapshot argument stays valid). -/
theorem waitdone_sticky_error (e : GoError) (done : Bool) (hne : e ≠ EndOfStream) :
    WaitDone (some e) done = some (some e) := by
  simp [WaitDone, HasError, hne]

/-- Claim C4 (witness): the sticky error at the concrete error string
"broken pipe", on a sample whose work is not yet done. -/
theorem waitdone_sticky_error_witness :
    ("broken pipe" ≠ EndOfStream) ∧
    WaitDone (some "broken pipe") false = some (some "broken pipe") :=
  ⟨by decide, waitdone_sticky_error "broken pipe" false (by decide)⟩

end Transport

namespace ForkCache

theorem lookupTemplate_append {FS : Type} (c l : List (Nat × SubpipelineStart FS))
    (tid : Nat) :
    lookupTemplate (c ++ l) tid =
      (match lookupTemplate c tid with
       | some e => some e
       | none => lookupTemplate l tid) := by
  induction c with
  | nil => rfl
  | cons p rest ih =>
    obtain ⟨t, e⟩ := p
    by_cases ht : t = tid
    · simp [lookupTemplate, ht]
    · simp [lookupTemplate, ht, ih]

theorem getPipeline_cached {FS : Type} (init : Nat → String → FS)
    (hook : Option (FS → FS)) (st : ForkState FS) (tid : Nat) (key : String)
    (e : SubpipelineStart FS) (h : lookupTemplate st.pipelines tid = some e) :
    getPipeline init hook st tid key = (st, e.firstStep, false) := by
  simp [getPipeline, h]

theorem getPipeline_new {FS : Type} (init : Nat → String → FS)
    (hook : Option (FS → FS)) (st : ForkState FS) (tid : Nat) (key : String)
    (h : lookupTemplate st.pipelines tid = none) :
    ∃ fs, getPipeline init hook st tid key =
      (⟨st.pipelines ++ [(tid, ⟨key, fs⟩)]⟩, fs, true) := by
  unfold getPipeline
  rw [h]
  exact ⟨_, rfl⟩

theorem lookup_getPipeline_mono {FS : Type} (init : Nat → String → FS)
    (hook : Option (FS → FS)) (st : ForkState FS) (t : Nat) (k : String)
    (tid : Nat) (e : SubpipelineStart FS)
    (h : lookupTemplate st.pipelines tid = some e) :
    lookupTemplate (getPipeline init hook st t k).1.pipelines tid = some e := by
  cases hl : lookupTemplate st.pipelines t with
  | some p =>
    rw [getPipeline_cached init hook st t k p hl]
    exact h
  | none =>
    obtain ⟨fs, hstep⟩ := getPipeline_new init hook st t k hl
    rw [hstep]
    show lookupTemplate (st.pipelines ++ [(t, ⟨k, fs⟩)]) tid = some e
    rw [lookupTemplate_append, h]

theorem lookup_getPipeline_none {FS : Type} (init : Nat → String → FS)
    (hook : Option (FS → FS)) (st : ForkState FS) (t : Nat) (k : String)
    (tid : Nat) (hne : t ≠ tid)
    (h : lookupTemplate st.pipelines tid = none) :
    lookupTemplate (getPipeline init hook st t k).1.pipelines tid = none := by
  cases hl : lookupTemplate st.pipelines t with
  | some p =>
    rw [getPipeline_cached init hook st t k p hl]
    exact h
  | none =>
    obtain ⟨fs, hstep⟩ := getPipeline_new init hook st t k hl
    rw [hstep]
    show lookupTemplate (st.pipelines ++ [(t, ⟨k, fs⟩)]) tid = none
    rw [lookupTemplate_append, h]
    simp [lookupTemplate, hne]

theorem runGetPipelines_cons {FS : Type} (init : Nat → String → FS)
    (hook : Option (FS → FS)) (st : ForkState FS) (t : Nat) (k : String)
    (rest : List (Nat × String)) :
    runGetPipelines init hook st ((t, k) :: rest)
      = ((runGetPipelines init hook (getPipeline init hook st t k).1 rest).1,
         (t, (getPipeline init hook st t k).2.1, (getPipeline init hook st t k).2.2)
           :: (runGetPipelines init hook (getPipeline init hook st t k).1 rest).2) := rfl

theorem initCount_cons {FS : Type} (t : Nat) (fs : FS) (b : Bool)
    (tr : List (Nat × FS × Bool)) (tid : Nat) :
    initCount ((t, fs, b) :: tr) tid =
      (if t = tid ∧ b = true then 1 else 0) + initCount tr tid := by
  by_cases hcond : t = tid ∧ b = true
  · simp [initCount, List.filter_cons, hcond, Nat.add_comm]
  · simp [initCount, List.filter_cons, hcond]

theorem runGetPipelines_cached_no_init {FS : Type} (init : Nat → String → FS)
    (hook : Option (FS → FS)) (calls : List (Nat × String)) :
    ∀ (st : ForkState FS) (tid : Nat) (e : SubpipelineStart FS),
      lookupTemplate st.pipelines tid = some e →
      initCount (runGetPipelines init hook st calls).2 tid = 0 := by
  induction calls with
  | nil => intro st tid e _; rfl
  | cons c rest ih =>
    intro st tid e h
    obtain ⟨t, k⟩ := c
    rw [runGetPipelines_cons, initCount_cons]
    have hmono := lookup_getPipeline_mono init hook st t k tid e h
    rw [ih _ tid e hmono]
    by_cases ht : t = tid
    · subst ht
      rw [getPipeline_cached init hook st t k e h]
      simp
    · simp [ht]

theorem runGetPipelines_init_le_one {FS : Type} (init : Nat → String → FS)
    (hook : Option (FS → FS)) (calls : List (Nat × String)) :
    ∀ (st : ForkState FS) (tid : Nat),
      lookupTemplate st.pipelines tid = none →
      initCount (runGetPipelines init hook st calls).2 tid ≤ 1 := by
  induction calls with
  | nil => intro st tid _; exact Nat.zero_le 1
  | cons c rest ih =>
    intro st tid h
    obtain ⟨t, k⟩ := c
    rw [runGetPipelines_cons, initCount_cons]
    by_cases ht : t = tid
    · subst ht
      obtain ⟨fs, hstep⟩ := getPipeline_new init hook st t k h
      rw [hstep]
      have hsome : lookupTemplate (⟨st.pipelines ++ [(t, ⟨k, fs⟩)]⟩ : ForkState FS).pipelines t
          = some ⟨k, fs⟩ := by
        show lookupTemplate (st.pipelines ++ [(t, ⟨k, fs⟩)]) t = some ⟨k, fs⟩
        rw [lookupTemplate_append, h]
        simp [lookupTemplate]
      rw [runGetPipelines_cached_no_init init hook rest _ t _ hsome]
      simp
    · have hnone := lookup_getPipeline_none init hook st t k tid ht h
      have hrest := ih _ tid hnone
      simp only [ht]
      simpa using hrest

/-- Claim C7: the fork's sub-pipeline cache, keyed by template identity,
instantiates each template at most once: over any sequence of `getPipeline`
calls, a template absent from the initial cache is initialized at most once,
and any call for a template already present in the cache returns the stored
first step unchanged, without re-initializing and without touching the cache.
The Go body of `SampleFork.getPipeline` runs entirely between `lock.Lock()`
and the deferred `Unlock()`, so the cache is only read and mutated under the
fork's lock; the model expresses this by treating each call as one atomic
step on the fork state. -/
theorem fork_cache_initializes_once {FS : Type} (init : Nat → String → FS)
    (hook : Option (FS → FS)) (st0 : ForkState FS) (calls : List (Nat × String))
    (tid : Nat) (st : ForkState FS) (tid' : Nat) (key' : String)
    (e : SubpipelineStart FS)
    (hnew : lookupTemplate st0.pipelines tid = none)
    (hcached : lookupTemplate st.pipelines tid' = some e) :
    initCount (runGetPipelines init hook st0 calls).2 tid ≤ 1 ∧
    getPipeline init hook st tid' key' = (st, e.firstStep, false) :=
  ⟨runGetPipelines_init_le_one init hook calls st0 tid hnew,
   getPipeline_cached init hook st tid' key' e hcached⟩

/-- Claim C7 (witness): a concrete run with two calls for template 5 and one
for template 7 starting from an empty cache initializes template 5 at most
once, and a call on a cache already holding template 7 returns the stored
entry unchanged. -/
theorem fork_cache_initializes_once_witness :
    (lookupTemplate (([] : List (Nat × SubpipelineStart Nat))) 5 = none ∧
     lookupTemplate [(7, (⟨"x", 9⟩ : SubpipelineStart Nat))] 7 = some ⟨"x", 9⟩) ∧
    (initCount (runGetPipelines (fun t _ => t + 100) none ⟨[]⟩
        [(5, "a"), (5, "b"), (7, "x")]).2 5 ≤ 1 ∧
     getPipeline (fun t _ => t + 100) none ⟨[(7, ⟨"x", 9⟩)]⟩ 7 "y"
       = (⟨[(7, ⟨"x", 9⟩)]⟩, 9, false)) :=
  ⟨⟨by decide, by decide⟩,
    fork_cache_initializes_once (fun t _ => t + 100) none ⟨[]⟩
      [(5, "a"), (5, "b"), (7, "x")] 5 ⟨[(7, ⟨"x", 9⟩)]⟩ 7 "y" ⟨"x", 9⟩
      (by decide) (by decide)⟩

end ForkCache

namespace Processor

/-- Claim C10: `SimpleProcessor.Sample` returns the "Process function is not
set" error for every input when `Process` is nil and forwards nothing; when
`Process` is set, the produced sample/header pair is forwarded to the
configured sink exactly when `Process` returned a nil error together with a
non-nil sample and a non-nil header (the call then returns the sink's
result); a nil sample or nil header with nil error forwards nothing and
returns nil; a non-nil error is returned as-is without forwarding. -/
theorem simple_processor_sample_behavior {S H : Type} (p : SimpleProcessor S H)
    (sink : S → H → Option GoError) (s : S) (hd : H) :
    (p.process = none →
      (p.sampleCall sink s hd).1 =
          some (p.str ++ ": Process function is not set") ∧
        (p.sampleCall sink s hd).2 = none) ∧
    (∀ f, p.process = some f →
      ((∀ s2 h2, f s hd = (some s2, some h2, none) →
          p.sampleCall sink s hd = (sink s2 h2, some (s2, h2))) ∧
       (∀ os oh, f s hd = (os, oh, none) → (os = none ∨ oh = none) →
          p.sampleCall sink s hd = (none, none)) ∧
       (∀ os oh e, f s hd = (os, oh, some e) →
          p.sampleCall sink s hd = (some e, none)) ∧
       ((p.sampleCall sink s hd).2 ≠ none ↔
          ∃ s2 h2, f s hd = (some s2, some h2, none)))) := by
  constructor
  · intro hp
    simp [SimpleProcessor.sampleCall, hp]
  · intro f hp
    refine ⟨?_, ?_, ?_, ?_⟩
    · intro s2 h2 hf
      simp [SimpleProcessor.sampleCall, hp, hf]
    · intro os oh hf hnil
      cases os with
      | none =>
        cases oh with
        | none => simp [SimpleProcessor.sampleCall, hp, hf]
        | some h2 => simp [SimpleProcessor.sampleCall, hp, hf]
      | some s2 =>
        cases oh with
        | none => simp [SimpleProcessor.sampleCall, hp, hf]
        | some h2 =>
          rcases hnil with h1 | h1 <;> exact absurd h1 (by simp)
    · intro os oh e hf
      cases os with
      | none => cases oh <;> simp [SimpleProcessor.sampleCall, hp, hf]
      | some s2 => cases oh <;> simp [SimpleProcessor.sampleCall, hp, hf]
    · constructor
      · intro hne
        rcases hfd : f s hd with ⟨os, oh, oe⟩
        cases os with
        | none =>
          cases oe <;> cases oh <;>
            simp [SimpleProcessor.sampleCall, hp, hfd] at hne
        | some s2 =>
          cases oh with
          | none =>
            cases oe <;> simp [SimpleProcessor.sampleCall, hp, hfd] at hne
          | some h2 =>
            cases oe with
            | none => exact ⟨s2, h2, rfl⟩
            | some e => simp [SimpleProcessor.sampleCall, hp, hfd] at hne
      · rintro ⟨s2, h2, hfd⟩
        simp [SimpleProcessor.sampleCall, hp, hfd]

/-- Claim C10 (witness): the three behaviours at concrete processors — the
unset processor errors, the incrementing processor forwards its output to the
sink, and the dropping processor silently returns nil. -/
theorem simple_processor_sample_behavior_witness :
    ((unsetProc.sampleCall nilSink 3 5).1 =
        some (unsetProc.str ++ ": Process function is not set") ∧
     (unsetProc.sampleCall nilSink 3 5).2 = none) ∧
    incrProc.sampleCall nilSink 3 5 = (nilSink 4 5, some (4, 5)) ∧
    dropProc.sampleCall nilSink 3 5 = (none, none) :=
  ⟨(simple_processor_sample_behavior unsetProc nilSink 3 5).1 rfl,
   ((simple_processor_sample_behavior incrProc nilSink 3 5).2 _ rfl).1 4 5 rfl,
   ((simple_processor_sample_behavior dropProc nilSink 3 5).2 _ rfl).2.1
     none none rfl (Or.inl rfl)⟩

end Processor
namespace Query

theorem transformSteps_cons_ok_ne_nil (V : Verifier) (s : PipelineStep)
    (rest res : List PipelineStep)
    (h : transformSteps V (s :: rest) = .ok res) : res ≠ [] := by
  rw [transformSteps.eq_def] at h
  simp only [] at h
  rcases hone : transformOne V s with e | n
  · rw [hone] at h; exact absurd h (by simp)
  · rw [hone] at h
    rcases hrest : transformSteps V rest with e2 | r2
    · rw [hrest] at h; exact absurd h (by simp)
    · rw [hrest] at h
      cases h
      simp

theorem transform_ok_ne_nil (V : Verifier) (pipe res : List PipelineStep) (b : Bool)
    (h : transform V pipe b = .ok res) : res ≠ [] := by
  rw [transform.eq_def] at h
  cases pipe with
  | nil => exact absurd h (by simp)
  | cons s rest =>
    cases s with
    | input toks =>
      simp only [] at h
      split at h
      · rcases hv : V.verifyInput (toks.map Token.content) with _ | e
        · rw [hv] at h
          simp only [] at h
          rcases hrest : transformSteps V rest with e2 | r2
          · rw [hrest] at h; exact absurd h (by simp)
          · rw [hrest] at h; cases h; simp
        · rw [hv] at h; exact absurd h (by simp)
      · rcases hrest : transformSteps V rest with e2 | r2
        · rw [hrest] at h; exact absurd h (by simp)
        · rw [hrest] at h; cases h; simp
    | pipelines ps =>
      simp only [] at h
      split at h
      · rcases he : transformEach V ps true with e2 | ps2
        · rw [he] at h; exact absurd h (by simp)
        · rw [he] at h
          simp only [] at h
          rcases hrest : transformSteps V rest with e2 | r2
          · rw [hrest] at h; exact absurd h (by simp)
          · rw [hrest] at h; cases h; simp
      · exact transformSteps_cons_ok_ne_nil V _ rest res h
    | output t => exact transformSteps_cons_ok_ne_nil V _ rest res h
    | step n p => exact transformSteps_cons_ok_ne_nil V _ rest res h
    | fork n p ps => exact transformSteps_cons_ok_ne_nil V _ rest res h
    | multiInput ps => exact transformSteps_cons_ok_ne_nil V _ rest res h

theorem transformEach_spec (V : Verifier) (b : Bool) :
    ∀ (pipes qs : List (List PipelineStep)),
      transformEach V pipes b = .ok qs →
      qs.length = pipes.length ∧
      ∀ i (hi : i < pipes.length) (hq : i < qs.length),
        transform V (pipes.get ⟨i, hi⟩) b = .ok (qs.get ⟨i, hq⟩) := by
  intro pipes
  induction pipes with
  | nil =>
    intro qs h
    rw [transformEach.eq_def] at h
    simp only [] at h
    cases h
    exact ⟨rfl, fun i hi => absurd hi (by simp)⟩
  | cons p rest ih =>
    intro qs h
    rw [transformEach.eq_def] at h
    simp only [] at h
    rcases hp : transform V p b with e | q
    · rw [hp] at h; exact absurd h (by simp)
    · rw [hp] at h
      rcases hrest : transformEach V rest b with e2 | qs2
      · rw [hrest] at h; exact absurd h (by simp)
      · rw [hrest] at h
        cases h
        obtain ⟨hlen, hpt⟩ := ih qs2 hrest
        refine ⟨by simp [hlen], ?_⟩
        intro i hi hq
        cases i with
        | zero => simpa using hp
        | succ j =>
          have hj : j < rest.length := by simpa using hi
          have hjq : j < qs2.length := by simpa using hq
          simpa using hpt j hj hjq

theorem prependInputs_length (k : Nat) (ps : List (List PipelineStep)) :
    (prependInputs k ps).length = ps.length := by
  induction ps generalizing k with
  | nil => rfl
  | cons p rest ih => simp [prependInputs, ih]

theorem prependInputs_get (k : Nat) (ps : List (List PipelineStep)) :
    ∀ i (hi : i < ps.length) (hi2 : i < (prependInputs k ps).length),
      (prependInputs k ps).get ⟨i, hi2⟩ =
        .input [strTok (Nat.repr (k + i))] :: ps.get ⟨i, hi⟩ := by
  induction ps generalizing k with
  | nil => intro i hi _; exact absurd hi (by simp)
  | cons p rest ih =>
    intro i hi hi2
    cases i with
    | zero => simp [prependInputs]
    | succ j =>
      have hj : j < rest.length := by simpa using hi
      have hj2 : j < (prependInputs (k + 1) rest).length := by
        rw [prependInputs_length]; exact hj
      have := ih (k + 1) j hj hj2
      simp only [prependInputs, List.get_cons_succ]
      rw [this]
      have harith : k + 1 + j = k + (j + 1) := by omega
      rw [harith]

end Query
namespace Query

/-- Claim C5 (counterexample): the claim fails as stated.  For a multiplex
group whose only sub-pipeline itself contains a nested group, the lowered
fork's sub-pipeline is not the original sub-pipeline with an `Input` token
prepended: the nested group has itself been lowered into a fork. -/
theorem multiplex_lowering_cex :
    transformMultiplex acceptAll [[.pipelines [[.step (strTok "a") []]]]]
      = .ok (.fork (strTok MultiplexForkName) []
          [[.input [strTok "0"],
            .fork (strTok MultiplexForkName) []
              [[.input [strTok "0"], .step (strTok "a") []]]]]) ∧
    ¬ ([PipelineStep.input [strTok "0"],
        .fork (strTok MultiplexForkName) []
          [[.input [strTok "0"], .step (strTok "a") []]]]
       = [PipelineStep.input [strTok "0"], .pipelines [[.step (strTok "a") []]]]) := by
  constructor
  · simp [transformMultiplex, transformFork, transformEach, transform, transformSteps,
      transformOne, transformStep, acceptAll, prependInputs, paramsMap,
      MultiplexForkName]
    rfl
  · intro hcontra
    simp at hcontra

/-- Claim C5 (amended): lowering a multiplex group of N sub-pipelines
produces a `Fork` whose step name is the token `multiplex` with empty
parameters and whose i-th sub-pipeline is the result of transforming (with
`isInput = false`) the i-th original sub-pipeline with an `Input` token
holding the decimal string of i prepended as its first step; for
sub-pipelines built only of plain verified steps this transformation is the
identity, but nested groups are themselves lowered (see the counterexample). -/
theorem multiplex_lowering_amended (V : Verifier) (pipes : List (List PipelineStep))
    (f : PipelineStep) (h : transformMultiplex V pipes = .ok f) :
    ∃ newPipes, f = .fork (strTok MultiplexForkName) [] newPipes ∧
      newPipes.length = pipes.length ∧
      ∀ i (hi : i < pipes.length) (hq : i < newPipes.length),
        transform V (.input [strTok (Nat.repr i)] :: pipes.get ⟨i, hi⟩) false
          = .ok (newPipes.get ⟨i, hq⟩) := by
  rw [transformMultiplex.eq_def, transformFork.eq_def] at h
  rcases hv : V.verifyFork (strTok MultiplexForkName) (paramsMap []) with _ | e
  · rw [hv] at h
    try simp only [] at h
    rcases he : transformEach V (prependInputs 0 pipes) false with e2 | qs
    · rw [he] at h; exact absurd h (by simp)
    · rw [he] at h
      cases h
      obtain ⟨hlen, hpt⟩ := transformEach_spec V false (prependInputs 0 pipes) qs he
      refine ⟨qs, rfl, by rw [hlen, prependInputs_length], ?_⟩
      intro i hi hq
      have hi2 : i < (prependInputs 0 pipes).length := by
        rw [prependInputs_length]; exact hi
      have := hpt i hi2 hq
      rw [prependInputs_get 0 pipes i hi hi2] at this
      simpa using this
  · rw [hv] at h; exact absurd h (by simp)

/-- Claim C5 (witness): the amended statement at the accept-all verifier and
one sub-pipeline consisting of a single plain step. -/
theorem multiplex_lowering_amended_witness :
    transformMultiplex acceptAll [[.step (strTok "a") []]] =
      .ok (.fork (strTok MultiplexForkName) []
        [[.input [strTok "0"], .step (strTok "a") []]]) ∧
    (∃ newPipes, (.fork (strTok MultiplexForkName) []
          [[.input [strTok "0"], .step (strTok "a") []]] : PipelineStep)
        = .fork (strTok MultiplexForkName) [] newPipes ∧
      newPipes.length = [[PipelineStep.step (strTok "a") []]].length ∧
      ∀ i (hi : i < [[PipelineStep.step (strTok "a") []]].length)
          (hq : i < newPipes.length),
        transform acceptAll
            (.input [strTok (Nat.repr i)] ::
              [[PipelineStep.step (strTok "a") []]].get ⟨i, hi⟩) false
          = .ok (newPipes.get ⟨i, hq⟩)) :=
  ⟨by
    simp [transformMultiplex, transformFork, transformEach, transform, transformSteps,
      transformOne, transformStep, acceptAll, prependInputs, paramsMap,
      MultiplexForkName]
    rfl,
   multiplex_lowering_amended acceptAll [[.step (strTok "a") []]] _
    (by
      simp [transformMultiplex, transformFork, transformEach, transform, transformSteps,
        transformOne, transformStep, acceptAll, prependInputs, paramsMap,
        MultiplexForkName]
      rfl)⟩

/-- Claim C6: for every pipeline that `Pipeline.Transform` lowers
successfully, if the transformed pipeline does not already begin with an
`Input` or `MultiInput` step, a synthetic `Input` holding the single token
with literal "empty" ++ "://" ++ "-" is prepended as the first step;
pipelines already beginning with an `Input` or `MultiInput` are returned
unchanged — and either way the result starts with an input step. -/
theorem transform_prepends_empty_input (V : Verifier) (pipe res : List PipelineStep)
    (h : Transform V pipe = .ok res) :
    ∃ inner, transform V pipe true = .ok inner ∧
      res = (if headIsInput inner then inner else .input [emptyEndpointToken] :: inner) ∧
      headIsInput res = true := by
  unfold Transform at h
  rcases hi : transform V pipe true with e | inner
  · rw [hi] at h; exact absurd h (by simp)
  · rw [hi] at h
    simp only [] at h
    refine ⟨inner, rfl, ?_⟩
    have hne := transform_ok_ne_nil V pipe inner true hi
    cases inner with
    | nil => exact absurd rfl hne
    | cons st rest =>
      cases st with
      | input toks => cases h; exact ⟨by simp [headIsInput], by simp [headIsInput]⟩
      | multiInput ps => cases h; exact ⟨by simp [headIsInput], by simp [headIsInput]⟩
      | output t => cases h; exact ⟨by simp [headIsInput], by simp [headIsInput]⟩
      | step n p => cases h; exact ⟨by simp [headIsInput], by simp [headIsInput]⟩
      | pipelines ps => cases h; exact ⟨by simp [headIsInput], by simp [headIsInput]⟩
      | fork n p ps => cases h; exact ⟨by simp [headIsInput], by simp [headIsInput]⟩

/-- Claim C6 (witness): lowering the single-step pipeline `a()` with the
accept-all verifier prepends the synthetic empty-endpoint input. -/
theorem transform_prepends_empty_input_witness :
    Transform acceptAll [.step (strTok "a") []] =
      .ok [.input [emptyEndpointToken], .step (strTok "a") []] ∧
    (∃ inner, transform acceptAll [.step (strTok "a") []] true = .ok inner ∧
      [PipelineStep.input [emptyEndpointToken], .step (strTok "a") []]
        = (if headIsInput inner then inner
           else .input [emptyEndpointToken] :: inner) ∧
      headIsInput [PipelineStep.input [emptyEndpointToken], .step (strTok "a") []]
        = true) :=
  ⟨by
    simp [Transform, transform, transformSteps, transformOne, transformStep, acceptAll],
   transform_prepends_empty_input acceptAll [.step (strTok "a") []] _
    (by
      simp [Transform, transform, transformSteps, transformOne, transformStep,
        acceptAll])⟩

end Query
